import Mathlib

/-!
Verification of the monthly-schedule rendering pipeline of the
`media-platform` repository.  Python strings are modelled as `List Char`
(`PyStr`); each Python helper of `monthly_schedule_text.py`,
`monthly_schedule_fonts.py` and `monthly_schedule_sources.py` that the
claims mention is translated into an executable Lean definition, and the
claimed properties are proved (or refuted) about those definitions.
-/

namespace MediaPlatform

/-- Python `str` modelled as a list of characters. -/
abbrev PyStr := List Char

/-- Characters stripped by Python `str.strip` / `str.rstrip`
(the ASCII whitespace characters; the schedule strings contain no
exotic Unicode whitespace). -/
def isSpaceChar (c : Char) : Bool :=
  c = ' ' || c = '\t' || c = '\n' || c = '\r' || c = '\x0b' || c = '\x0c'

/-- Python `str.lstrip()`. -/
def pyLstrip (s : PyStr) : PyStr := s.dropWhile isSpaceChar

/-- Python `str.rstrip()`. -/
def pyRstrip (s : PyStr) : PyStr := (s.reverse.dropWhile isSpaceChar).reverse

/-- Python `str.strip()`. -/
def pyStrip (s : PyStr) : PyStr := pyRstrip (pyLstrip s)

/-- ASCII lowering of one character, as Python `str.lower` acts on the
ASCII range (the Japanese tokens appearing in the sources are unaffected
by `lower`). -/
def lowerChar (c : Char) : Char :=
  if 'A' ≤ c ∧ c ≤ 'Z' then Char.ofNat (c.toNat + 32) else c

/-- Python `str.lower()` (ASCII part; identity on the Japanese text used
by the schedule code). -/
def pyLower (s : PyStr) : PyStr := s.map lowerChar

/-- Does `pre` occur at the start of `s`?  (List prefix test, executable.) -/
def startsWithSeq : PyStr → PyStr → Bool
  | [], _ => true
  | _ :: _, [] => false
  | a :: as, b :: bs => a = b && startsWithSeq as bs

/-- Python `needle in hay` substring containment. -/
def containsSub (needle hay : PyStr) : Bool :=
  hay.tails.any (fun t => startsWithSeq needle t)

/-- Python `str.replace(a, b)` for single characters. -/
def charReplace (a b : Char) (s : PyStr) : PyStr :=
  s.map (fun c => if c = a then b else c)

/-- Worker for Python `s.split(" / ")`: scans left to right, splitting at
each (leftmost, non-overlapping) occurrence of the three-character
separator `" / "`.  `acc` holds the current segment reversed. -/
def splitSlash : PyStr → PyStr → List PyStr
  | [], acc => [acc.reverse]
  | c :: c2 :: c3 :: rest', acc =>
    if c = ' ' ∧ c2 = '/' ∧ c3 = ' ' then
      acc.reverse :: splitSlash rest' []
    else
      splitSlash (c2 :: c3 :: rest') (c :: acc)
  | c :: rest, acc => splitSlash rest (c :: acc)

/-- Python `s.split(" / ")`. -/
def pySplitSlash (s : PyStr) : List PyStr := splitSlash s []

/-- Worker for Python whitespace `str.split()`. -/
def splitWsAux : PyStr → PyStr → List PyStr
  | [], acc => if acc.isEmpty then [] else [acc.reverse]
  | c :: rest, acc =>
    if isSpaceChar c then
      if acc.isEmpty then splitWsAux rest [] else acc.reverse :: splitWsAux rest []
    else
      splitWsAux rest (c :: acc)

/-- Python `str.split()` (split on whitespace runs, no empty fields). -/
def pySplitWs (s : PyStr) : List PyStr := splitWsAux s []

/-- Is `c` an ASCII decimal digit? -/
def isDigitChar (c : Char) : Bool := '0' ≤ c && c ≤ '9'

/-- Numeric value of a digit list, most significant first. -/
def digitsToNat : PyStr → Nat → Nat
  | [], acc => acc
  | c :: rest, acc => digitsToNat rest (acc * 10 + (c.toNat - '0'.toNat))

/-- Python `int(s)` restricted to an optional sign followed by ASCII
digits (the only shapes the schedule time tokens can take); any other
input raises `ValueError`, modelled as `none`. -/
def pyIntOpt (s : PyStr) : Option Int :=
  match s with
  | '-' :: rest =>
    if rest ≠ [] ∧ rest.all isDigitChar then some (-(digitsToNat rest 0 : Int)) else none
  | '+' :: rest =>
    if rest ≠ [] ∧ rest.all isDigitChar then some (digitsToNat rest 0 : Int) else none
  | _ =>
    if s ≠ [] ∧ s.all isDigitChar then some (digitsToNat s 0 : Int) else none

/-! ## Data model (`monthly_schedule_models.py`) -/

/-- The fields of a Python `datetime` that the schedule pipeline reads:
the ordinal calendar day it falls on plus hour and minute. -/
structure PyDateTime where
  day : Nat
  hour : Nat
  minute : Nat
deriving DecidableEq

/-- `ScheduleEntry`: one schedule item for a single day (`end` is a Lean
keyword, hence `end_`). -/
structure ScheduleEntry where
  day : Nat
  title : PyStr
  classroom : PyStr
  venue : PyStr
  start : Option PyDateTime := none
  end_ : Option PyDateTime := none
  slot : PyStr := []
deriving DecidableEq

/-- `DayCard`: grouped card per day/classroom. -/
structure DayCard where
  classroom : PyStr
  venue : PyStr
  first_time : PyStr := []
  second_time : PyStr := []
  beginner_time : PyStr := []
  has_night : Bool := false
  other_times : List PyStr := []
deriving DecidableEq

/-! ## `monthly_schedule_text.py` -/

/-- `_format_clock`: `f"{value.hour:2d}:{value.minute:02d}"`, the empty
string for `None`.  Width-2 space padding for the hour. -/
def fmtWidth2 (n : Nat) : PyStr :=
  if n < 10 then ' ' :: (Nat.repr n).data else (Nat.repr n).data

/-- Zero-padded two-digit rendering (`f"{n:02d}"`). -/
def fmtZero2 (n : Nat) : PyStr :=
  if n < 10 then '0' :: (Nat.repr n).data else (Nat.repr n).data

/-- `_format_clock`. -/
def formatClock : Option PyDateTime → PyStr
  | none => []
  | some t => fmtWidth2 t.hour ++ ':' :: fmtZero2 t.minute

/-- `_format_time_range`. -/
def formatTimeRange (e : ScheduleEntry) : PyStr :=
  let startText := formatClock e.start
  let endText := formatClock e.end_
  if startText ≠ [] ∧ endText ≠ [] then startText ++ '~' :: endText
  else if startText ≠ [] then startText ++ ['~']
  else if endText ≠ [] then '~' :: endText
  else "時間未定".data

/-- `_expand_time_values`. -/
def expandTimeValues (s : PyStr) : List PyStr :=
  if (pyStrip s).isEmpty then []
  else (pySplitSlash s).filterMap
    (fun item => if (pyStrip item).isEmpty then none else some (pyRstrip item))

/-- Loop body of `_extract_start_hour_from_time_text`: first token that
contains a colon and whose part before the first colon parses as an
integer in `0..23` gives that hour. -/
def firstHourToken : List PyStr → Option Nat
  | [] => none
  | tok :: rest =>
    if ':' ∉ tok then firstHourToken rest
    else
      match pyIntOpt (tok.takeWhile (fun c => c ≠ ':')) with
      | none => firstHourToken rest
      | some h => if 0 ≤ h ∧ h ≤ 23 then some h.toNat else firstHourToken rest

/-- `_extract_start_hour_from_time_text`. -/
def extractStartHourFromTimeText (s : PyStr) : Option Nat :=
  firstHourToken (pySplitWs (charReplace '~' ' ' s))

/-- Loop body of `_is_night_time_text`: the first valid clock token
decides, via `hour >= 17`. -/
def nightHourToken : List PyStr → Bool
  | [] => false
  | tok :: rest =>
    if ':' ∉ tok then nightHourToken rest
    else
      match pyIntOpt (tok.takeWhile (fun c => c ≠ ':')) with
      | none => nightHourToken rest
      | some h => if 0 ≤ h ∧ h ≤ 23 then decide (h ≥ 17) else nightHourToken rest

/-- `_is_night_time_text`. -/
def isNightTimeText (s : PyStr) : Bool :=
  nightHourToken (pySplitWs (charReplace '~' ' ' s))

/-- Classification used inside `_build_fixed_time_rows`: hour `< 12`. -/
def isMorningValue (v : PyStr) : Bool :=
  match extractStartHourFromTimeText v with
  | some h => decide (h < 12)
  | none => false

/-- Classification used inside `_build_fixed_time_rows`: hour `>= 12`. -/
def isAfternoonValue (v : PyStr) : Bool :=
  match extractStartHourFromTimeText v with
  | some h => decide (12 ≤ h)
  | none => false

/-- Classification used inside `_build_fixed_time_rows`: no parsable hour. -/
def isUnknownValue (v : PyStr) : Bool :=
  (extractStartHourFromTimeText v).isNone

/-- The `line1` selection of `_build_fixed_time_rows` (the sequential
reassignments of `line1`), on the expanded `values` list.  The category
lists mirror the classification loop: `morning`/`afternoon`/`unknown`
by extracted start hour, intersected with the non-night values. -/
def codeLine1 (values : List PyStr) : PyStr :=
  let nonNightValues := values.filter (fun v => !isNightTimeText v)
  let nonNightMorning := (values.filter isMorningValue).filter (fun v => decide (v ∈ nonNightValues))
  let nonNightAfternoon := (values.filter isAfternoonValue).filter (fun v => decide (v ∈ nonNightValues))
  let nonNightUnknown := (values.filter isUnknownValue).filter (fun v => decide (v ∈ nonNightValues))
  let line1a := if nonNightMorning ≠ [] then nonNightMorning.headD [] else []
  let line1b := if line1a = [] ∧ nonNightAfternoon ≠ [] then nonNightAfternoon.headD [] else line1a
  let line1c := if line1b = [] ∧ nonNightUnknown ≠ [] then nonNightUnknown.headD [] else line1b
  if line1c = [] ∧ nonNightValues ≠ [] then nonNightValues.headD [] else line1c

/-- The `line2` selection of `_build_fixed_time_rows`: the first night
value, else the `for candidate in [*non_night_afternoon,
*non_night_unknown, *non_night_values]` loop. -/
def codeLine2 (values : List PyStr) (line1 : PyStr) : PyStr :=
  let nightValues := values.filter isNightTimeText
  let nonNightValues := values.filter (fun v => !isNightTimeText v)
  let nonNightAfternoon := (values.filter isAfternoonValue).filter (fun v => decide (v ∈ nonNightValues))
  let nonNightUnknown := (values.filter isUnknownValue).filter (fun v => decide (v ∈ nonNightValues))
  let line2a := if nightValues ≠ [] then nightValues.headD [] else []
  if line2a = [] then
    match (nonNightAfternoon ++ nonNightUnknown ++ nonNightValues).find?
        (fun c => !c.isEmpty && decide (c ≠ line1)) with
    | some c => c
    | none => []
  else line2a

/-- `_build_fixed_time_rows`. -/
def buildFixedTimeRows (card : DayCard) : List PyStr × PyStr :=
  let values := expandTimeValues card.first_time ++ expandTimeValues card.second_time
  let beginnerValues := expandTimeValues card.beginner_time
  if values = [] ∧ beginnerValues = [] then (["時間未定".data, []], [])
  else
    let line1 := codeLine1 values
    let line2 := codeLine2 values line1
    let line1' := if line1 = [] ∧ line2 ≠ [] ∧ isNightTimeText line2 then [] else line1
    let beginner := if beginnerValues ≠ [] then beginnerValues.headD [] else []
    ([line1', line2], beginner)

/-- Tokens recognised in the explicit slot hint for "beginner". -/
def beginnerHintTokens : List PyStr := ["beginner".data, "初回".data, "はじめて".data]

/-- Tokens recognised in the explicit slot hint for "second". -/
def secondHintTokens : List PyStr := ["second".data, "2部".data, "第2".data, "二部".data]

/-- Tokens recognised in the explicit slot hint for "first". -/
def firstHintTokens : List PyStr := ["first".data, "1部".data, "第1".data, "一部".data]

/-- Tokens recognised in the title for "beginner". -/
def beginnerTitleTokens : List PyStr := ["初回".data, "はじめて".data]

/-- Tokens recognised in the title for "second". -/
def secondTitleTokens : List PyStr := ["2部".data, "第2".data, "二部".data]

/-- Tokens recognised in the title for "first". -/
def firstTitleTokens : List PyStr := ["1部".data, "第1".data, "一部".data]

/-- `any(token in text for token in tokens)`. -/
def containsAnyTok (tokens : List PyStr) (text : PyStr) : Bool :=
  tokens.any (fun t => containsSub t text)

/-- `_normalize_slot`. -/
def normalizeSlot (slot : PyStr) (title : PyStr := []) : PyStr :=
  let value := pyLower (pyStrip slot)
  let titleValue := pyStrip title
  if containsAnyTok beginnerHintTokens value then "beginner".data
  else if containsAnyTok secondHintTokens value then "second".data
  else if containsAnyTok firstHintTokens value then "first".data
  else if containsAnyTok beginnerTitleTokens titleValue then "beginner".data
  else if containsAnyTok secondTitleTokens titleValue then "second".data
  else if containsAnyTok firstTitleTokens titleValue then "first".data
  else []

/-- The list comprehension in `_merge_time_text`: rstripped non-blank
`" / "`-separated values. -/
def timeValuesOf (s : PyStr) : List PyStr :=
  (pySplitSlash s).filterMap
    (fun v => if (pyStrip v).isEmpty then none else some (pyRstrip v))

/-- `_merge_time_text`. -/
def mergeTimeText (existing newText : PyStr) : PyStr :=
  if newText = [] then existing
  else if existing = [] then newText
  else if pyRstrip newText ∈ timeValuesOf existing then existing
  else existing ++ " / ".data ++ newText

/-- Python `value.replace(" - ", " ")`: three-character substring
replacement, scanning left to right. -/
def replaceDashWord : PyStr → PyStr
  | [] => []
  | c :: c2 :: c3 :: rest =>
    if c = ' ' ∧ c2 = '-' ∧ c3 = ' ' then ' ' :: replaceDashWord rest
    else c :: replaceDashWord (c2 :: c3 :: rest)
  | c :: rest => c :: replaceDashWord rest

/-- Loop body of `_time_text_to_sort_key`. -/
def sortTokenMinutes : List PyStr → Nat
  | [] => 10000
  | tok :: rest =>
    if ':' ∉ tok then sortTokenMinutes rest
    else
      match pyIntOpt (tok.takeWhile (fun c => c ≠ ':')),
            pyIntOpt ((tok.dropWhile (fun c => c ≠ ':')).tail) with
      | some h, some m =>
        if 0 ≤ h ∧ h ≤ 23 ∧ 0 ≤ m ∧ m ≤ 59 then h.toNat * 60 + m.toNat
        else sortTokenMinutes rest
      | _, _ => sortTokenMinutes rest

/-- `_time_text_to_sort_key`. -/
def timeTextToSortKey (timeText : PyStr) : Nat :=
  let value := pyStrip timeText
  if value = [] then 10000
  else sortTokenMinutes (pySplitWs (charReplace '~' ' ' (charReplace '-' ' ' (replaceDashWord value))))

/-- `_is_night_entry`. -/
def isNightEntry (e : ScheduleEntry) : Bool :=
  (match e.start with | some t => decide (t.hour ≥ 17) | none => false)
  || (match e.end_ with | some t => decide (t.hour ≥ 20) | none => false)
  || (let slotText := pyLower (pyStrip e.slot)
      containsSub "night".data slotText || containsSub "夜".data slotText)
  || containsSub "夜".data (pyStrip e.title)

/-- The set comprehension inside `_resolve_night_time_line_indexes`:
indexes of non-empty lines whose text parses as a night time. -/
def explicitNightIndexes (lines : List PyStr) : Finset Nat :=
  ((List.range lines.length).filter
    (fun i => !(lines.getD i []).isEmpty && isNightTimeText (lines.getD i []))).toFinset

/-- `_resolve_night_time_line_indexes`: which line indexes carry the
night badge; Python `set[int]` modelled as `Finset Nat`. -/
def resolveNightTimeLineIndexes (card : DayCard) (lines : List PyStr) : Finset Nat :=
  if !card.has_night then ∅
  else if 2 ≤ lines.length ∧ lines.getD 1 [] ≠ [] ∧ isNightTimeText (lines.getD 1 []) then {0}
  else if explicitNightIndexes lines ≠ ∅ then
    (if 0 ∈ explicitNightIndexes lines then {0} else explicitNightIndexes lines)
  else if 2 ≤ lines.length ∧ lines.getD 1 [] ≠ [] then {0}
  else if lines ≠ [] ∧ lines.getD 0 [] ≠ [] then {0}
  else ∅

/-! ## Sorting (`_entry_sort_key` and Python `sorted`) -/

/-- `_entry_sort_key`. -/
def entrySortKey (e : ScheduleEntry) : Nat × Nat × Nat × PyStr :=
  match e.start with
  | some t => (e.day, t.hour, t.minute, e.title)
  | none => (e.day, 99, 99, e.title)

/-- Python `str < str`: lexicographic comparison by code points. -/
def strLt : PyStr → PyStr → Bool
  | [], [] => false
  | [], _ :: _ => true
  | _ :: _, [] => false
  | a :: as, b :: bs => if a < b then true else if b < a then false else strLt as bs

/-- Total `≤` on entry sort keys (tuple lexicographic order). -/
def keyLe (a b : Nat × Nat × Nat × PyStr) : Bool :=
  if a.1 ≠ b.1 then decide (a.1 < b.1)
  else if a.2.1 ≠ b.2.1 then decide (a.2.1 < b.2.1)
  else if a.2.2.1 ≠ b.2.2.1 then decide (a.2.2.1 < b.2.2.1)
  else strLt a.2.2.2 b.2.2.2 || decide (a.2.2.2 = b.2.2.2)

/-- Comparison used by `sorted(events, key=_entry_sort_key)`. -/
def entryLe (e1 e2 : ScheduleEntry) : Bool := keyLe (entrySortKey e1) (entrySortKey e2)

/-- Insert `x` after every element `y` with `le y x`; folding this over
the input is a stable sort, hence the same list Python's stable `sorted`
returns for a total preorder `le`. -/
def insertBy (le : α → α → Bool) (x : α) : List α → List α
  | [] => [x]
  | y :: ys => if le y x then y :: insertBy le x ys else x :: y :: ys

/-- Stable sort by `le` (Python `sorted` / `list.sort`). -/
def stableSortBy (le : α → α → Bool) (l : List α) : List α :=
  l.foldl (fun acc x => insertBy le x acc) []

/-- `sorted(events, key=_entry_sort_key)`. -/
def sortEntries (events : List ScheduleEntry) : List ScheduleEntry :=
  stableSortBy entryLe events

/-! ## `_build_day_cards` -/

/-- The sentinel installed when entries of one group disagree on venue. -/
def multiVenue : PyStr := "複数会場".data

/-- The venue-reconciliation branch of `_build_day_cards`
(the `elif venue:` block acting on an existing card). -/
def updateCardVenue (card : DayCard) (venue : PyStr) : DayCard :=
  if venue = [] then card
  else if card.venue = [] then { card with venue := venue }
  else if card.venue ≠ venue ∧ card.venue ≠ multiVenue then { card with venue := multiVenue }
  else card

/-- The slot/time-merging part of the `_build_day_cards` loop body,
including the `has_night` update. -/
def mergeEntryTimes (card : DayCard) (e : ScheduleEntry) : DayCard :=
  let timeText := formatTimeRange e
  let slot := normalizeSlot e.slot e.title
  let card1 :=
    if slot = "first".data then { card with first_time := mergeTimeText card.first_time timeText }
    else if slot = "second".data then { card with second_time := mergeTimeText card.second_time timeText }
    else if slot = "beginner".data then { card with beginner_time := mergeTimeText card.beginner_time timeText }
    else if timeText ≠ [] ∧ timeText ∉ card.other_times then { card with other_times := card.other_times ++ [timeText] }
    else card
  if isNightEntry e then { card1 with has_night := true } else card1

/-- Lookup in the insertion-ordered association list modelling `by_key`. -/
def lookupCard (key : PyStr) : List (PyStr × DayCard) → Option DayCard
  | [] => none
  | (k, c) :: rest => if k = key then some c else lookupCard key rest

/-- Replace the card stored under `key` (first occurrence). -/
def setCard (key : PyStr) (c : DayCard) : List (PyStr × DayCard) → List (PyStr × DayCard)
  | [] => []
  | (k, c0) :: rest => if k = key then (k, c) :: rest else (k, c0) :: setCard key c rest

/-- One iteration of the `for entry in sorted(events, ...)` loop of
`_build_day_cards`, acting on the `by_key` dict (an insertion-ordered
association list). -/
def addEntryToState (state : List (PyStr × DayCard)) (e : ScheduleEntry) : List (PyStr × DayCard) :=
  let classroom := pyStrip e.classroom
  let venue := pyStrip e.venue
  let key := if classroom = [] then "未定".data else classroom
  match lookupCard key state with
  | none =>
    let card : DayCard := { classroom := classroom, venue := venue }
    state ++ [(key, mergeEntryTimes card e)]
  | some card =>
    setCard key (mergeEntryTimes (updateCardVenue card venue) e) state

/-- One step of the `other_times` backfill loop of `_build_day_cards`. -/
def backfillStep (c : DayCard) (t : PyStr) : DayCard :=
  if c.first_time = [] then { c with first_time := t }
  else if c.second_time = [] ∧ t ≠ c.first_time then { c with second_time := t }
  else if c.beginner_time = [] ∧ t ≠ c.first_time ∧ t ≠ c.second_time then { c with beginner_time := t }
  else c

/-- The backfill loop of `_build_day_cards`. -/
def backfillCard (c : DayCard) : DayCard := c.other_times.foldl backfillStep c

/-- `_card_sort_key`. -/
def cardSortKey (c : DayCard) : Nat × PyStr :=
  let first := if c.first_time ≠ [] then c.first_time
    else if c.second_time ≠ [] then c.second_time else c.beginner_time
  (timeTextToSortKey first, c.classroom)

/-- Comparison used by `cards.sort(key=_card_sort_key)`. -/
def cardLe (c1 c2 : DayCard) : Bool :=
  if (cardSortKey c1).1 ≠ (cardSortKey c2).1 then decide ((cardSortKey c1).1 < (cardSortKey c2).1)
  else strLt (cardSortKey c1).2 (cardSortKey c2).2 || decide ((cardSortKey c1).2 = (cardSortKey c2).2)

/-- `_build_day_cards`. -/
def buildDayCards (events : List ScheduleEntry) : List DayCard :=
  let state := (sortEntries events).foldl addEntryToState []
  let cards := (state.map (fun p => p.2)).map backfillCard
  stableSortBy cardLe cards

/-- The `by_key` grouping key of an entry in `_build_day_cards`:
its stripped classroom, or the `"未定"` sentinel when empty. -/
def entryKeyOf (e : ScheduleEntry) : PyStr :=
  if pyStrip e.classroom = [] then "未定".data else pyStrip e.classroom

/-- The grouping key a card was stored under (its classroom, or the
`"未定"` sentinel when empty). -/
def cardKeyOf (c : DayCard) : PyStr :=
  if c.classroom = [] then "未定".data else c.classroom

/-- The value-level venue reconciliation step (the effect of the
`elif venue:` block of `_build_day_cards` on the `venue` field). -/
def updateVenueVal (current v : PyStr) : PyStr :=
  if v = [] then current
  else if current = [] then v
  else if current ≠ v ∧ current ≠ multiVenue then multiVenue
  else current

/-! ## `monthly_schedule_fonts.py` -/

/-- `_is_ascii_char`: full match against `ASCII_RUN_RE = [\x00-\x7F]+`,
i.e. the character's code point is at most `0x7F`. -/
def isAsciiChar (c : Char) : Bool := c.toNat ≤ 127

/-- Loop of `_split_text_runs`: `current` holds the run being built
(reversed), `currentAscii` its classification. -/
def splitRunsAux : PyStr → PyStr → Bool → List (PyStr × Bool)
  | [], current, currentAscii => [(current.reverse, currentAscii)]
  | c :: rest, current, currentAscii =>
    if isAsciiChar c = currentAscii then splitRunsAux rest (c :: current) currentAscii
    else (current.reverse, currentAscii) :: splitRunsAux rest [c] (isAsciiChar c)

/-- `_split_text_runs`. -/
def splitTextRuns : PyStr → List (PyStr × Bool)
  | [] => []
  | c :: rest => splitRunsAux rest [c] (isAsciiChar c)

/-- The scale factors visited by the `while scale >= min_scale` loop of
`_fit_font_set_to_width` with the default `min_scale = 0.62`, as
percentages: `0.96, 0.92, …` in steps of `0.04` while at least `0.62`
(floating-point drift in the repeated subtraction stays far below the
`0.02` margin to the floor, so the visited set is exactly this one). -/
def scaleSteps : List Nat := [96, 92, 88, 84, 80, 76, 72, 68, 64]

/-- The `while` loop of `_fit_font_set_to_width`, abstracted over the
measured mixed-text width `width s` of the text rendered with the font
set scaled to `s` percent; `fitted` carries the most recent candidate.
(The `candidate is fonts` guard only fires when `font_variant` raises,
which the happy path modelled here never does.) -/
def fitLoop (width : Nat → Nat) (maxW : Nat) : List Nat → Nat → Nat
  | [], fitted => fitted
  | s :: rest, _ => if width s ≤ maxW then s else fitLoop width maxW rest s

/-- `_fit_font_set_to_width` (default `min_scale`), returning the scale
percentage of the returned font set: 100 means the set is returned
unchanged. -/
def fitFontScale (width : Nat → Nat) (maxW : Nat) : Nat :=
  if width 100 ≤ maxW then 100 else fitLoop width maxW scaleSteps 100

/-- `" / "`-joined values: the shape of time-field strings built by
repeated `_merge_time_text` appends (`' ' :: '/' :: ' ' :: s` is
definitionally `" / ".data ++ s`). -/
def joinSep : List PyStr → PyStr
  | [] => []
  | [v] => v
  | v :: vs => v ++ ' ' :: '/' :: ' ' :: joinSep vs

/-- A single clean time value: non-blank and without a slash, as every
`_format_time_range` output is. -/
def CleanTimeVal (v : PyStr) : Prop := pyStrip v ≠ [] ∧ '/' ∉ v

/-- A string reachable as a card time field: empty, or a `" / "`-join of
clean values. -/
def MergedTimeField (s : PyStr) : Prop :=
  s = [] ∨ ∃ vs, vs ≠ [] ∧ (∀ v ∈ vs, CleanTimeVal v) ∧ s = joinSep vs

/-! ## `monthly_schedule_sources.py` (`_build_entry_from_any_date`)

JSON values are modelled by `JVal` (null, string, number rendering,
list); the datetime parser `_parse_json_datetime` — whose internals rest
on Python's `fromisoformat`/`strptime` — is abstracted as a function
parameter `parse : JVal → Option Nat → Option Nat × Option PyDateTime`
returning the `(date-or-None, datetime-or-None)` pair the call sites
consume (the optional second argument is the `base_day`).  The claims
about `_build_entry_from_any_date` concern only which keys are consulted
and how missing/unparsable results propagate, so they are proved for
*every* parser. -/

/-- A JSON value (the shapes the schedule records use). -/
inductive JVal where
  | vnull
  | vstr (s : PyStr)
  | vnum (rep : PyStr)
  | vlist (items : List JVal)

/-- `_to_text`: string rendering used by `_pick_text` (`None` → empty,
strings stripped, numbers via `str`, lists joined with `" / "`). -/
def toText : JVal → PyStr
  | .vnull => []
  | .vstr s => pyStrip s
  | .vnum rep => rep
  | .vlist items => joinSep ((items.attach.map (fun x => toText x.1)).filter (fun p => !p.isEmpty))
termination_by v => sizeOf v
decreasing_by
  simp_wf
  have := List.sizeOf_lt_of_mem x.2
  omega

/-- Python `dict.get` over the insertion-ordered pair list. -/
def dictGet : List (String × JVal) → String → Option JVal
  | [], _ => none
  | (k, v) :: rest, key => if k = key then some v else dictGet rest key

/-- `_pick_text`: first key whose value renders to non-empty text. -/
def pickText (d : List (String × JVal)) : List String → PyStr
  | [] => []
  | k :: rest =>
    let text := match dictGet d k with
      | none => []
      | some v => toText v
    if text ≠ [] then text else pickText d rest

/-- The date keys probed by `_build_entry_from_any_date`. -/
def anyDateKeys : List String :=
  ["date", "day", "ymd", "date_ymd", "日付", "start", "start_at", "starts_at", "startAt"]

/-- The end keys probed by `_build_entry_from_any_date`. -/
def anyEndKeys : List String := ["end", "end_at", "ends_at", "endAt"]

/-- The start keys probed by the fallback loop of `_build_entry_from_dict`. -/
def startFallbackKeys : List String :=
  ["start", "start_at", "starts_at", "startAt", "time", "start_time", "first_start",
   "firstStart", "second_start", "secondStart", "beginner_start", "beginnerStart",
   "1部開始", "2部開始", "初回者開始"]

/-- The end keys probed by the fallback loop of `_build_entry_from_dict`. -/
def endFallbackKeys : List String :=
  ["end", "end_at", "ends_at", "endAt", "end_time", "first_end", "firstEnd",
   "second_end", "secondEnd", "1部終了", "2部終了"]

/-- The abstracted `_parse_json_datetime`. -/
abbrev ParseFn := JVal → Option Nat → Option Nat × Option PyDateTime

/-- The date-key loop of `_build_entry_from_any_date`: first non-null
value whose parse yields a day breaks the loop (keeping the datetime
when one came with it); parses that yield no day are skipped. -/
def dateKeyLoop (parse : ParseFn) (d : List (String × JVal)) :
    List String → Option (Nat × Option PyDateTime)
  | [] => none
  | k :: rest =>
    match dictGet d k with
    | none => dateKeyLoop parse d rest
    | some JVal.vnull => dateKeyLoop parse d rest
    | some v =>
      match parse v none with
      | (some day, odt) => some (day, odt)
      | (none, _) => dateKeyLoop parse d rest

/-- The end-key loop of `_build_entry_from_any_date`. -/
def endKeyLoopAny (parse : ParseFn) (d : List (String × JVal)) :
    List String → Option PyDateTime
  | [] => none
  | k :: rest =>
    match dictGet d k with
    | none => endKeyLoopAny parse d rest
    | some JVal.vnull => endKeyLoopAny parse d rest
    | some v =>
      match (parse v none).2 with
      | some dt => some dt
      | none => endKeyLoopAny parse d rest

/-- The start fallback loop of `_build_entry_from_dict`: first value
parsing to a datetime (with the current day as base) sets the start and
may move the day. -/
def startFallbackLoop (parse : ParseFn) (d : List (String × JVal)) (day : Nat) :
    List String → Nat × Option PyDateTime
  | [] => (day, none)
  | k :: rest =>
    match dictGet d k with
    | none => startFallbackLoop parse d day rest
    | some JVal.vnull => startFallbackLoop parse d day rest
    | some v =>
      match parse v (some day) with
      | (pd, some dt) => (pd.getD day, some dt)
      | (_, none) => startFallbackLoop parse d day rest

/-- The end fallback loop of `_build_entry_from_dict`. -/
def endFallbackLoop (parse : ParseFn) (d : List (String × JVal)) (day : Nat) :
    List String → Option PyDateTime
  | [] => none
  | k :: rest =>
    match dictGet d k with
    | none => endFallbackLoop parse d day rest
    | some JVal.vnull => endFallbackLoop parse d day rest
    | some v =>
      match (parse v (some day)).2 with
      | some dt => some dt
      | none => endFallbackLoop parse d day rest

/-- `_build_entry_from_dict` (`none` models a non-dict item). -/
def buildEntryFromDict (parse : ParseFn) (item : Option (List (String × JVal)))
    (day : Nat) (startDt endDt : Option PyDateTime) : Option ScheduleEntry :=
  match item with
  | none => none
  | some d =>
    let classroom := pickText d ["classroom", "classroom_name", "studio", "教室"]
    let venue := pickText d ["venue", "venue_name", "会場", "location"]
    let title0 := pickText d ["title", "name", "label", "event_name", "lesson_name", "lesson", "type"]
    let slot := pickText d ["slot", "time_slot", "part", "部", "時間帯"]
    let title :=
      if title0 ≠ [] then title0
      else
        match dictGet d "participants" with
        | some (JVal.vlist items) =>
          if items.isEmpty then
            (if pickText d ["lesson_id", "lessonId"] ≠ [] then "レッスン".data
             else "予定".data)
          else (Nat.repr items.length).data ++ "名".data
        | _ =>
          if pickText d ["lesson_id", "lessonId"] ≠ [] then "レッスン".data
          else "予定".data
    let ds :=
      match startDt with
      | some dt => (day, some dt)
      | none => startFallbackLoop parse d day startFallbackKeys
    let endv :=
      match endDt with
      | some dt => some dt
      | none => endFallbackLoop parse d ds.1 endFallbackKeys
    some { day := ds.1, title := title, classroom := classroom, venue := venue,
           start := ds.2, end_ := endv, slot := slot }

/-- `_build_entry_from_any_date`. -/
def buildEntryFromAnyDate (parse : ParseFn) (item : Option (List (String × JVal))) :
    Option ScheduleEntry :=
  match item with
  | none => none
  | some d =>
    match dateKeyLoop parse d anyDateKeys with
    | none => none
    | some (day, startDt) =>
      buildEntryFromDict parse (some d) day startDt (endKeyLoopAny parse d anyEndKeys)

/-! ## Claim-side (specification) definitions

These definitions transcribe the *spec's wording* of a claim, to be
compared with the definitions above that transcribe the code.  They are
deliberately phrased differently (priority tables, `find?`/`head?`
selection) from the `if`-cascades of the code. -/

/-- C3 as stated by the spec: the title stage repeats *the same three
checks* (same token sets) as the hint stage. -/
def claimSlotAsStated (slot title : PyStr) : PyStr :=
  let value := pyLower (pyStrip slot)
  let titleValue := pyStrip title
  if containsAnyTok beginnerHintTokens value then "beginner".data
  else if containsAnyTok secondHintTokens value then "second".data
  else if containsAnyTok firstHintTokens value then "first".data
  else if containsAnyTok beginnerHintTokens titleValue then "beginner".data
  else if containsAnyTok secondHintTokens titleValue then "second".data
  else if containsAnyTok firstHintTokens titleValue then "first".data
  else []

/-- The expanded `first_time`/`second_time` values of a card (the
`values` local of `_build_fixed_time_rows`). -/
def cardTimeValues (card : DayCard) : List PyStr :=
  expandTimeValues card.first_time ++ expandTimeValues card.second_time

/-- C1's wording for `line1`: first non-night morning value, else first
non-night afternoon value, else first non-night unknown value, else
first remaining non-night value, else the empty string. -/
def claimLine1 (values : List PyStr) : PyStr :=
  match (values.filter (fun v => !isNightTimeText v && isMorningValue v)).head? with
  | some v => v
  | none =>
    match (values.filter (fun v => !isNightTimeText v && isAfternoonValue v)).head? with
    | some v => v
    | none =>
      match (values.filter (fun v => !isNightTimeText v && isUnknownValue v)).head? with
      | some v => v
      | none =>
        match (values.filter (fun v => !isNightTimeText v)).head? with
        | some v => v
        | none => []

/-- C1's wording for `line2` as stated: first night value, else the
first non-night value *in the original expansion order* not equal to
`line1`. -/
def claimLine2AsStated (values : List PyStr) (line1 : PyStr) : PyStr :=
  match (values.filter isNightTimeText).head? with
  | some v => v
  | none =>
    match (values.filter (fun v => !isNightTimeText v)).find? (fun v => decide (v ≠ line1)) with
    | some v => v
    | none => []

/-- C1 amended wording for `line2`: first night value, else the first
value among the non-night afternoon values, then the non-night unknown
values, then all non-night values, that is non-empty and differs from
`line1`. -/
def claimLine2Amended (values : List PyStr) (line1 : PyStr) : PyStr :=
  match (values.filter isNightTimeText).head? with
  | some v => v
  | none =>
    match ((values.filter (fun v => !isNightTimeText v && isAfternoonValue v))
        ++ (values.filter (fun v => !isNightTimeText v && isUnknownValue v))
        ++ (values.filter (fun v => !isNightTimeText v))).find?
        (fun c => !c.isEmpty && decide (c ≠ line1)) with
    | some v => v
    | none => []

/-- C4's wording of venue reconciliation: the first non-empty venue
seen, unless a later entry of the group carries a different non-empty
venue, in which case the "multiple venues" sentinel. -/
def resolveVenueSpec (vs : List PyStr) : PyStr :=
  match vs.filter (fun v => !v.isEmpty) with
  | [] => []
  | v :: rest => if rest.all (fun w => decide (w = v)) then v else multiVenue

/-- Invariant carried through the `_build_day_cards` grouping loop:
keys are unique, absent keys have no processed entries, and each stored
card is keyed by its classroom and carries the venue fold of its
group's stripped venues in processing order. -/
def VenueInv (processed : List ScheduleEntry) (state : List (PyStr × DayCard)) : Prop :=
  ((state.map Prod.fst).Nodup) ∧
  (∀ k, lookupCard k state = none →
    processed.filter (fun e => decide (entryKeyOf e = k)) = []) ∧
  (∀ k c, lookupCard k state = some c → cardKeyOf c = k ∧
    c.venue = List.foldl updateVenueVal []
      ((processed.filter (fun e => decide (entryKeyOf e = k))).map (fun e => pyStrip e.venue)))

/-- Priority table for the hint stage: beginner before second before first. -/
def hintSlotTable : List (PyStr × List PyStr) :=
  [("beginner".data, beginnerHintTokens),
   ("second".data, secondHintTokens),
   ("first".data, firstHintTokens)]

/-- Priority table for the title stage (local-script tokens only). -/
def titleSlotTable : List (PyStr × List PyStr) :=
  [("beginner".data, beginnerTitleTokens),
   ("second".data, secondTitleTokens),
   ("first".data, firstTitleTokens)]

/-- First table row one of whose tokens occurs in `text`. -/
def firstSlotMatch (table : List (PyStr × List PyStr)) (text : PyStr) : Option PyStr :=
  (table.find? (fun p => containsAnyTok p.2 text)).map (fun p => p.1)

/-! ## Concrete inputs used by example theorems -/

/-- A card with the night flag set and no other data. -/
def exCardNight : DayCard := { classroom := [], venue := [], has_night := true }

/-- A card with two morning values and one afternoon value. -/
def exCardC1 : DayCard :=
  { classroom := [], venue := [],
    first_time := " 9:00~ / 10:00~".data, second_time := "13:00~".data }

/-- Two same-classroom entries with different non-empty venues. -/
def venEntryA : ScheduleEntry :=
  { day := 1, title := "a".data, classroom := "東京".data, venue := "浅草橋".data }

/-- Second entry of the same classroom, different venue. -/
def venEntryB : ScheduleEntry :=
  { day := 1, title := "b".data, classroom := "東京".data, venue := "東池袋".data }

/-- The card `_build_day_cards` produces for `venEntryA`/`venEntryB`. -/
def exCardC4 : DayCard :=
  { classroom := "東京".data, venue := multiVenue,
    first_time := "時間未定".data, other_times := ["時間未定".data] }

/-- A parser recognising only the literal date string `"2026-03-01"`. -/
def exParse : ParseFn := fun v _ =>
  match v with
  | JVal.vstr s => if s = "2026-03-01".data then (some 1, none) else (none, none)
  | _ => (none, none)

/-- A record with a parsable date key and no time keys. -/
def exItemC9 : List (String × JVal) :=
  [("date", JVal.vstr "2026-03-01".data), ("classroom", JVal.vstr "東京教室".data)]

/-! ## Theorems -/

theorem isNightTimeText_nil : isNightTimeText ([] : PyStr) = false := rfl

/-- A positive night classification needs at least one character. -/
theorem ne_nil_of_isNightTimeText {s : PyStr} (h : isNightTimeText s = true) : s ≠ [] := by
  intro hnil
  rw [hnil, isNightTimeText_nil] at h
  exact Bool.false_ne_true h

/-- `getD` with an out-of-range index yields the default. -/
theorem getD_len_le {l : List PyStr} {i : Nat} (h : l.length ≤ i) : l.getD i [] = [] :=
  List.getD_eq_default l [] h

/-- A non-default `getD` result is a member of the list. -/
theorem getD_mem_of_ne {l : List PyStr} {i : Nat} (h : l.getD i [] ≠ []) : l.getD i [] ∈ l := by
  by_cases hlen : i < l.length
  · rw [List.getD_eq_getElem l [] hlen]
    exact List.getElem_mem hlen
  · exact absurd (getD_len_le (Nat.le_of_not_lt hlen)) h

/-- An index with a non-default `getD` is in range. -/
theorem lt_length_of_getD_ne {l : List PyStr} {i : Nat} (h : l.getD i [] ≠ []) : i < l.length := by
  by_contra hlt
  exact h (getD_len_le (Nat.le_of_not_lt hlt))

/-- C2: for every DayCard with `has_night = true` and every line pair where
`line2` parses as a night time and `line1` is non-empty,
`_resolve_night_time_line_indexes` returns exactly `{0}`: the night badge
attaches to index 0 (the non-empty `line1`), not to index 1. -/
theorem C2_night_badge_on_line1 (card : DayCard) (l1 l2 : PyStr)
    (hnight : card.has_night = true) (hl2 : isNightTimeText l2 = true) (_hl1 : l1 ≠ []) :
    resolveNightTimeLineIndexes card [l1, l2] = {0} := by
  have hl2ne : l2 ≠ [] := ne_nil_of_isNightTimeText hl2
  unfold resolveNightTimeLineIndexes
  simp [hnight, hl2, hl2ne]

/-- C2 witness: the spec's concrete tie-break example. -/
theorem C2_night_badge_on_line1_witness :
    exCardNight.has_night = true ∧ isNightTimeText "17:30~20:00".data = true ∧
    "12:00~16:00".data ≠ ([] : PyStr) ∧
    resolveNightTimeLineIndexes exCardNight ["12:00~16:00".data, "17:30~20:00".data] = {0} :=
  ⟨rfl, by decide, by decide,
    C2_night_badge_on_line1 exCardNight "12:00~16:00".data "17:30~20:00".data rfl (by decide)
      (by decide)⟩

/-- C10 counterexample: a card with `has_night = true` and a line list whose
only non-empty line (a non-night afternoon text) sits at index 2 makes
`_resolve_night_time_line_indexes` return the empty set, refuting the claim
that a non-empty line forces a non-empty index set (and the default badge
at index 0). -/
theorem C10_counterexample :
    exCardNight.has_night = true ∧
    "12:00~16:00".data ∈ (["".data, "".data, "12:00~16:00".data] : List PyStr) ∧
    "12:00~16:00".data ≠ ([] : PyStr) ∧
    resolveNightTimeLineIndexes exCardNight ["".data, "".data, "12:00~16:00".data] = ∅ :=
  ⟨rfl, by decide, by decide, by decide⟩

/-- For a card with the night flag, the resolver reduces to its cascade
of branch tests. -/
theorem resolveNight_cases (card : DayCard) (lines : List PyStr)
    (h : card.has_night = true) :
    resolveNightTimeLineIndexes card lines =
      (if 2 ≤ lines.length ∧ lines.getD 1 [] ≠ [] ∧ isNightTimeText (lines.getD 1 []) then ({0} : Finset Nat)
       else if explicitNightIndexes lines ≠ ∅ then
         (if 0 ∈ explicitNightIndexes lines then {0} else explicitNightIndexes lines)
       else if 2 ≤ lines.length ∧ lines.getD 1 [] ≠ [] then {0}
       else if lines ≠ [] ∧ lines.getD 0 [] ≠ [] then {0}
       else ∅) := by
  unfold resolveNightTimeLineIndexes
  rw [h]
  simp only [Bool.not_true, Bool.false_eq_true, if_false]

/-- If neither the length-2-and-line2 branch nor anything before it fires,
a non-empty first-or-second line forces the final line-1 fallback test to
succeed. -/
theorem first_two_fallback {lines : List PyStr}
    (hne : lines.getD 0 [] ≠ [] ∨ lines.getD 1 [] ≠ [])
    (h3 : ¬ (2 ≤ lines.length ∧ lines.getD 1 [] ≠ [])) :
    lines ≠ [] ∧ lines.getD 0 [] ≠ [] := by
  rcases hne with h0 | h1
  · refine ⟨?_, h0⟩
    intro hnil
    rw [hnil] at h0
    exact h0 rfl
  · exact absurd ⟨Nat.succ_le_of_lt (lt_length_of_getD_ne h1), h1⟩ h3

/-- When no line parses as a night time, the explicit index set is empty. -/
theorem explicitNightIndexes_empty {lines : List PyStr}
    (hno : ∀ l ∈ lines, isNightTimeText l = false) :
    explicitNightIndexes lines = ∅ := by
  unfold explicitNightIndexes
  rw [List.toFinset_eq_empty_iff, List.filter_eq_nil_iff]
  intro i _
  by_cases hgi : lines.getD i [] = []
  · rw [hgi]
    decide
  · rw [hno _ (getD_mem_of_ne hgi)]
    simp
/-- C10 (amended): `_resolve_night_time_line_indexes` returns `∅` whenever
`has_night` is false; whenever `has_night` is true and at least one of the
first two lines is non-empty it returns a non-empty index set; and when
additionally no line's text parses as a night time the badge defaults to
index 0. -/
theorem C10_amended (card : DayCard) (lines : List PyStr) :
    (card.has_night = false → resolveNightTimeLineIndexes card lines = ∅) ∧
    (card.has_night = true → (lines.getD 0 [] ≠ [] ∨ lines.getD 1 [] ≠ []) →
      resolveNightTimeLineIndexes card lines ≠ ∅) ∧
    (card.has_night = true → (lines.getD 0 [] ≠ [] ∨ lines.getD 1 [] ≠ []) →
      (∀ l ∈ lines, isNightTimeText l = false) →
      resolveNightTimeLineIndexes card lines = {0}) := by
  refine ⟨?_, ?_, ?_⟩
  · intro h
    unfold resolveNightTimeLineIndexes
    simp [h]
  · intro h hne
    rw [resolveNight_cases card lines h]
    by_cases hb1 : 2 ≤ lines.length ∧ lines.getD 1 [] ≠ [] ∧ isNightTimeText (lines.getD 1 [])
    · rw [if_pos hb1]
      exact Finset.singleton_ne_empty 0
    · rw [if_neg hb1]
      by_cases hex : explicitNightIndexes lines ≠ ∅
      · rw [if_pos hex]
        by_cases h0 : 0 ∈ explicitNightIndexes lines
        · rw [if_pos h0]
          exact Finset.singleton_ne_empty 0
        · rw [if_neg h0]
          exact hex
      · rw [if_neg hex]
        by_cases hb3 : 2 ≤ lines.length ∧ lines.getD 1 [] ≠ []
        · rw [if_pos hb3]
          exact Finset.singleton_ne_empty 0
        · rw [if_neg hb3, if_pos (first_two_fallback hne hb3)]
          exact Finset.singleton_ne_empty 0
  · intro h hne hno
    have hex : explicitNightIndexes lines = ∅ := explicitNightIndexes_empty hno
    have hb1 : ¬ (2 ≤ lines.length ∧ lines.getD 1 [] ≠ [] ∧ isNightTimeText (lines.getD 1 [])) := by
      rintro ⟨-, hg1, hn1⟩
      rw [hno _ (getD_mem_of_ne hg1)] at hn1
      exact Bool.false_ne_true hn1
    rw [resolveNight_cases card lines h, if_neg hb1, if_neg (not_not_intro hex)]
    by_cases hb3 : 2 ≤ lines.length ∧ lines.getD 1 [] ≠ []
    · rw [if_pos hb3]
    · rw [if_neg hb3, if_pos (first_two_fallback hne hb3)]

/-- C10 amended witness: a non-empty non-night first line with the night
flag set places the badge at index 0. -/
theorem C10_amended_witness :
    exCardNight.has_night = true ∧
    ("12:00~16:00".data ≠ ([] : PyStr) ∨ ([] : PyStr) ≠ ([] : PyStr)) ∧
    resolveNightTimeLineIndexes exCardNight ["12:00~16:00".data, "".data] = {0} :=
  ⟨rfl, Or.inl (by decide),
    (C10_amended exCardNight ["12:00~16:00".data, "".data]).2.2 rfl (Or.inl (by decide))
      (by decide)⟩

/-- C3 counterexample: with an empty hint and the title `"beginner 1部"`
— which contains both the beginner marker `"beginner"` and the first
marker `"1部"` — repeating the same three checks on the title (as the
claim states) would give `"beginner"`, but `_normalize_slot` returns
`"first"`: the title stage only looks for the local-script tokens. -/
theorem C3_counterexample :
    containsSub "beginner".data (pyStrip "beginner 1部".data) = true ∧
    containsSub "1部".data (pyStrip "beginner 1部".data) = true ∧
    claimSlotAsStated [] "beginner 1部".data = "beginner".data ∧
    normalizeSlot [] "beginner 1部".data = "first".data ∧
    "first".data ≠ "beginner".data :=
  ⟨by decide, by decide, by decide, by decide, by decide⟩

/-- C3 (amended): `_normalize_slot` classifies by substring matching in
fixed priority order — beginner tokens in the hint, then second, then
first; only if the hint matches none of the three are the three checks
repeated on the title, *with the local-script token sets only*
(`初回/はじめて`, `2部/第2/二部`, `1部/第1/一部`).  In particular a title
containing both a local-script beginner marker and a first marker
classifies as beginner. -/
theorem C3_amended (slot title : PyStr) :
    normalizeSlot slot title =
      (firstSlotMatch hintSlotTable (pyLower (pyStrip slot))).getD
        ((firstSlotMatch titleSlotTable (pyStrip title)).getD []) := by
  unfold normalizeSlot firstSlotMatch hintSlotTable titleSlotTable
  cases h1 : containsAnyTok beginnerHintTokens (pyLower (pyStrip slot)) <;>
  cases h2 : containsAnyTok secondHintTokens (pyLower (pyStrip slot)) <;>
  cases h3 : containsAnyTok firstHintTokens (pyLower (pyStrip slot)) <;>
  cases h4 : containsAnyTok beginnerTitleTokens (pyStrip title) <;>
  cases h5 : containsAnyTok secondTitleTokens (pyStrip title) <;>
  cases h6 : containsAnyTok firstTitleTokens (pyStrip title) <;>
  simp [h1, h2, h3, h4, h5, h6, List.find?]

/-- The fit loop returns the first fitting scale of the list, else the
last element (defaulting to the carried candidate for the empty list). -/
theorem fitLoop_eq_find (width : Nat → Nat) (maxW : Nat) :
    ∀ (l : List Nat) (fitted : Nat),
      fitLoop width maxW l fitted
        = ((l.find? (fun s => width s ≤ maxW)).getD (l.getLastD fitted)) := by
  intro l
  induction l with
  | nil => intro fitted; rfl
  | cons s rest ih =>
    intro fitted
    unfold fitLoop
    by_cases hs : width s ≤ maxW
    · rw [if_pos hs, List.find?_cons_of_pos _ (by simpa using hs)]
      rfl
    · rw [if_neg hs, List.find?_cons_of_neg _ (by simpa using hs), ih s,
        List.getLastD_cons]

/-- Characterization of `fitFontScale`: unchanged when the text already
fits, otherwise the first fitting scale of the descending step list,
defaulting to the final (most scaled-down) candidate 64. -/
theorem fitFontScale_char (width : Nat → Nat) (maxW : Nat) :
    (width 100 ≤ maxW → fitFontScale width maxW = 100) ∧
    (¬ width 100 ≤ maxW →
      fitFontScale width maxW = ((scaleSteps.find? (fun s => width s ≤ maxW)).getD 64)) := by
  constructor
  · intro h
    unfold fitFontScale
    rw [if_pos h]
  · intro h
    unfold fitFontScale
    rw [if_neg h, fitLoop_eq_find]
    rfl

/-- A defaulted `find?` result is the default or a member. -/
theorem findD_mem_or (p : Nat → Bool) (l : List Nat) (d : Nat) :
    ((l.find? p).getD d = d) ∨ ((l.find? p).getD d ∈ l) := by
  cases hf : l.find? p with
  | none => exact Or.inl rfl
  | some s =>
    right
    simpa using List.mem_of_find?_eq_some hf

/-- The returned scale never exceeds 100: the font set is never
stretched above its base size. -/
theorem fitFontScale_le_100 (width : Nat → Nat) (maxW : Nat) :
    fitFontScale width maxW ≤ 100 := by
  by_cases h : width 100 ≤ maxW
  · rw [(fitFontScale_char width maxW).1 h]
  · rw [(fitFontScale_char width maxW).2 h]
    rcases findD_mem_or (fun s => width s ≤ maxW) scaleSteps 64 with hc | hc
    · rw [hc]
      norm_num
    · have : ∀ x ∈ scaleSteps, x ≤ 100 := by decide
      exact this _ hc

/-- On a descending list whose elements dominate the default, weakening
the predicate can only increase the defaulted `find?` result. -/
theorem findD_le_of_imp (p q : Nat → Bool) (himp : ∀ s, q s = true → p s = true) :
    ∀ (l : List Nat) (d : Nat), l.Pairwise (fun a b => b ≤ a) → (∀ x ∈ l, d ≤ x) →
      ((l.find? q).getD d) ≤ ((l.find? p).getD d) := by
  intro l
  induction l with
  | nil => intro d _ _; exact Nat.le_refl d
  | cons a t ih =>
    intro d hpair hd
    rcases List.pairwise_cons.mp hpair with ⟨hat, hpt⟩
    by_cases hpa : p a = true
    · rw [List.find?_cons_of_pos _ hpa]
      cases hqa : q a with
      | true =>
        rw [List.find?_cons_of_pos _ hqa]
      | false =>
        rw [List.find?_cons_of_neg _ (by simp [hqa])]
        show (t.find? q).getD d ≤ a
        rcases findD_mem_or q t d with hc | hc
        · rw [hc]
          exact hd a (List.mem_cons_self a t)
        · exact hat _ hc
    · have hqa : ¬ q a = true := fun hq => hpa (himp a hq)
      rw [List.find?_cons_of_neg _ (by simpa using hqa),
        List.find?_cons_of_neg _ (by simpa using hpa)]
      exact ih d hpt (fun x hx => hd x (List.mem_cons_of_mem a hx))

/-- C6: for every width function and maximum width,
`_fit_font_set_to_width` returns the font set unchanged (scale 100%)
whenever the mixed text width already fits; otherwise it returns the
first (largest) scale of the fixed descending sequence
`96, 92, …, 64` percent at which the text fits, or the most scaled-down
candidate (64%) when none fits; and it never scales above 100%. -/
theorem C6_fit_font_scale (width : Nat → Nat) (maxW : Nat) :
    (width 100 ≤ maxW → fitFontScale width maxW = 100) ∧
    (¬ width 100 ≤ maxW →
      fitFontScale width maxW = ((scaleSteps.find? (fun s => width s ≤ maxW)).getD 64)) ∧
    fitFontScale width maxW ≤ 100 :=
  ⟨(fitFontScale_char width maxW).1, (fitFontScale_char width maxW).2,
    fitFontScale_le_100 width maxW⟩

/-- C6 witness: with `width s = s` and `maxW = 80` the text does not fit
unscaled and the loop settles on scale 80. -/
theorem C6_fit_font_scale_witness :
    ¬ ((fun s => s) 100 ≤ 80) ∧ fitFontScale (fun s => s) 80 = 80 :=
  ⟨by decide,
    ((C6_fit_font_scale (fun s => s) 80).2.1 (by decide)).trans (by decide)⟩

/-- C7: for a fixed text and base font set (hence a fixed width
function), shrinking the maximum width never increases the returned
scale factor. -/
theorem C7_fit_font_monotone (width : Nat → Nat) (w1 w2 : Nat) (h : w2 ≤ w1) :
    fitFontScale width w2 ≤ fitFontScale width w1 := by
  by_cases h2 : width 100 ≤ w2
  · rw [(fitFontScale_char width w2).1 h2,
      (fitFontScale_char width w1).1 (Nat.le_trans h2 h)]
  · by_cases h1 : width 100 ≤ w1
    · rw [(fitFontScale_char width w1).1 h1]
      exact fitFontScale_le_100 width w2
    · rw [(fitFontScale_char width w2).2 h2, (fitFontScale_char width w1).2 h1]
      apply findD_le_of_imp
      · intro s hs
        simp only [decide_eq_true_eq] at hs ⊢
        exact Nat.le_trans hs h
      · decide
      · decide

/-- C7 witness: a strictly shrinking width pair with `width s = s`. -/
theorem C7_fit_font_monotone_witness :
    (70 : Nat) ≤ 80 ∧ fitFontScale (fun s => s) 70 ≤ fitFontScale (fun s => s) 80 :=
  ⟨by decide, C7_fit_font_monotone (fun s => s) 80 70 (by decide)⟩

/-- Invariant proof for the `_split_text_runs` loop: starting from a
non-empty homogeneous current run, the emitted runs concatenate to
`current.reverse ++ rest`, are non-empty, homogeneous, alternate in
classification, and the first emitted run carries the current
classification. -/
theorem splitRunsAux_spec :
    ∀ (rest current : PyStr) (cA : Bool), current ≠ [] → (∀ c ∈ current, isAsciiChar c = cA) →
    (((splitRunsAux rest current cA).map Prod.fst).flatten = current.reverse ++ rest) ∧
    (∀ r ∈ splitRunsAux rest current cA, r.1 ≠ []) ∧
    (∀ r ∈ splitRunsAux rest current cA, ∀ c ∈ r.1, isAsciiChar c = r.2) ∧
    ((splitRunsAux rest current cA).Chain' (fun a b => a.2 ≠ b.2)) ∧
    ((splitRunsAux rest current cA).head?.map Prod.snd = some cA) := by
  intro rest
  induction rest with
  | nil =>
    intro current cA hne hhom
    refine ⟨by simp [splitRunsAux], ?_, ?_, ?_, ?_⟩
    · intro r hr
      rw [splitRunsAux] at hr
      rcases List.mem_singleton.mp hr with rfl
      simpa using hne
    · intro r hr c hc
      rw [splitRunsAux] at hr
      rcases List.mem_singleton.mp hr with rfl
      exact hhom c (List.mem_reverse.mp hc)
    · rw [splitRunsAux]
      exact List.chain'_singleton _
    · rw [splitRunsAux]
      rfl
  | cons c rest ih =>
    intro current cA hne hhom
    by_cases hc : isAsciiChar c = cA
    · have hhom' : ∀ d ∈ (c :: current), isAsciiChar d = cA := by
        intro d hd
        rcases List.mem_cons.mp hd with rfl | hd
        · exact hc
        · exact hhom d hd
      have H := ih (c :: current) cA (List.cons_ne_nil c current) hhom'
      rw [splitRunsAux, if_pos hc]
      refine ⟨?_, H.2.1, H.2.2.1, H.2.2.2.1, H.2.2.2.2⟩
      rw [H.1, List.reverse_cons, List.append_assoc]
      rfl
    · have H := ih [c] (isAsciiChar c) (List.cons_ne_nil c []) (by simp)
      rw [splitRunsAux, if_neg hc]
      refine ⟨?_, ?_, ?_, ?_, rfl⟩
      · simp only [List.map_cons, List.flatten_cons]
        rw [H.1]
        simp
      · intro r hr
        rcases List.mem_cons.mp hr with rfl | hr
        · simpa using hne
        · exact H.2.1 r hr
      · intro r hr d hd
        rcases List.mem_cons.mp hr with rfl | hr
        · exact hhom d (List.mem_reverse.mp hd)
        · exact H.2.2.1 r hr d hd
      · rw [List.chain'_cons']
        refine ⟨?_, H.2.2.2.1⟩
        intro y hy
        have hsnd := H.2.2.2.2
        cases hhead : (splitRunsAux rest [c] (isAsciiChar c)).head? with
        | none => rw [hhead] at hy; exact absurd hy (by simp)
        | some z =>
          rw [hhead] at hy hsnd
          rcases Option.some_inj.mp hy with rfl
          have : z.2 = isAsciiChar c := by
            simpa using hsnd
          rw [this]
          exact fun hcontr => hc hcontr.symm

/-- C8: `_split_text_runs` partitions a string into non-empty runs whose
texts concatenate back to the input in order, each run entirely ASCII or
entirely non-ASCII, adjacent runs of opposite classification (so runs
are maximal); the empty string yields no runs. -/
theorem C8_split_text_runs (s : PyStr) :
    (((splitTextRuns s).map Prod.fst).flatten = s) ∧
    (∀ r ∈ splitTextRuns s, r.1 ≠ []) ∧
    (∀ r ∈ splitTextRuns s, ∀ c ∈ r.1, isAsciiChar c = r.2) ∧
    ((splitTextRuns s).Chain' (fun a b => a.2 ≠ b.2)) ∧
    splitTextRuns ([] : PyStr) = [] := by
  cases s with
  | nil => exact ⟨rfl, by simp [splitTextRuns], by simp [splitTextRuns], by simp [splitTextRuns], rfl⟩
  | cons c rest =>
    have H := splitRunsAux_spec rest [c] (isAsciiChar c) (List.cons_ne_nil c []) (by simp)
    have he : splitTextRuns (c :: rest) = splitRunsAux rest [c] (isAsciiChar c) := rfl
    rw [he]
    refine ⟨?_, H.2.1, H.2.2.1, H.2.2.2.1, rfl⟩
    rw [H.1]
    rfl

/-- `pyRstrip` erases a string exactly when it is all whitespace. -/
theorem pyRstrip_eq_nil_iff {s : PyStr} : pyRstrip s = [] ↔ ∀ c ∈ s, isSpaceChar c := by
  unfold pyRstrip
  rw [List.reverse_eq_nil_iff, List.dropWhile_eq_nil_iff]
  constructor
  · intro h c hc
    exact h c (List.mem_reverse.mpr hc)
  · intro h c hc
    exact h c (List.mem_reverse.mp hc)

/-- A string that survives a full strip also survives a right strip. -/
theorem pyRstrip_ne_nil_of_pyStrip {s : PyStr} (h : pyStrip s ≠ []) : pyRstrip s ≠ [] := by
  intro hr
  apply h
  have hall : ∀ c ∈ s, isSpaceChar c := pyRstrip_eq_nil_iff.mp hr
  have hl : pyLstrip s = [] := by
    unfold pyLstrip
    rw [List.dropWhile_eq_nil_iff]
    exact hall
  unfold pyStrip
  rw [hl]
  rfl

/-- Every expanded time value is a non-empty string. -/
theorem mem_expandTimeValues_ne_nil {s v : PyStr} (h : v ∈ expandTimeValues s) : v ≠ [] := by
  unfold expandTimeValues at h
  by_cases hs : (pyStrip s).isEmpty
  · rw [if_pos hs] at h
    exact absurd h (List.not_mem_nil v)
  · rw [if_neg hs] at h
    rcases List.mem_filterMap.mp h with ⟨item, _, hf⟩
    by_cases hi : (pyStrip item).isEmpty
    · rw [if_pos hi] at hf
      exact absurd hf (by simp)
    · rw [if_neg hi] at hf
      have hv : v = pyRstrip item := (Option.some_inj.mp hf).symm
      rw [hv]
      apply pyRstrip_ne_nil_of_pyStrip
      intro hnil
      rw [hnil] at hi
      exact hi rfl

/-- Every expanded first/second value of a card is non-empty. -/
theorem mem_cardTimeValues_ne_nil (card : DayCard) : ∀ v ∈ cardTimeValues card, v ≠ [] := by
  intro v hv
  rcases List.mem_append.mp hv with h | h
  · exact mem_expandTimeValues_ne_nil h
  · exact mem_expandTimeValues_ne_nil h

/-- Filtering a category list down to the non-night members equals
filtering the base list by the conjunction: the code's
`[v for v in morning if v in non_night_values]` lists are plain
conjunction filters. -/
theorem filter_mem_nonNight (values : List PyStr) (q : PyStr → Bool) :
    (values.filter q).filter
      (fun v => decide (v ∈ values.filter (fun v => !isNightTimeText v)))
      = values.filter (fun v => !isNightTimeText v && q v) := by
  rw [List.filter_filter]
  apply List.filter_congr
  intro x hx
  simp [List.mem_filter, hx, Bool.and_comm]

/-- The `line1` cascade of the code equals the claim's wording. -/
theorem codeLine1_eq_claim (values : List PyStr) (hv : ∀ v ∈ values, v ≠ []) :
    codeLine1 values = claimLine1 values := by
  unfold codeLine1 claimLine1
  simp only [filter_mem_nonNight]
  rcases ha : values.filter (fun v => !isNightTimeText v && isMorningValue v) with _ | ⟨a, as⟩
  · rcases hb : values.filter (fun v => !isNightTimeText v && isAfternoonValue v) with _ | ⟨b, bs⟩
    · rcases hc : values.filter (fun v => !isNightTimeText v && isUnknownValue v) with _ | ⟨c, cs⟩
      · rcases hd : values.filter (fun v => !isNightTimeText v) with _ | ⟨d, ds⟩
        · simp
        · simp
      · have hcne : c ≠ [] :=
          hv c (List.mem_of_mem_filter (hc ▸ List.mem_cons_self c cs))
        simp [hcne]
    · have hbne : b ≠ [] :=
        hv b (List.mem_of_mem_filter (hb ▸ List.mem_cons_self b bs))
      simp [hbne]
  · have hane : a ≠ [] :=
      hv a (List.mem_of_mem_filter (ha ▸ List.mem_cons_self a as))
    simp [hane]

/-- The `line2` selection of the code equals the amended wording. -/
theorem codeLine2_eq_claim (values : List PyStr) (line1 : PyStr)
    (hv : ∀ v ∈ values, v ≠ []) :
    codeLine2 values line1 = claimLine2Amended values line1 := by
  unfold codeLine2 claimLine2Amended
  simp only [filter_mem_nonNight]
  rcases hn : values.filter isNightTimeText with _ | ⟨n, ns⟩
  · simp
  · have hnne : n ≠ [] :=
      hv n (List.mem_of_mem_filter (hn ▸ List.mem_cons_self n ns))
    simp [hnne]

/-- C1 counterexample: for a card with expanded values
`[" 9:00~", "10:00~", "13:00~"]` the claim's `line2` (first non-night
value in expansion order different from `line1`) is `"10:00~"`, but the
code returns `"13:00~"` — the loop tries the afternoon values first. -/
theorem C1_counterexample :
    claimLine1 (cardTimeValues exCardC1) = " 9:00~".data ∧
    claimLine2AsStated (cardTimeValues exCardC1) (claimLine1 (cardTimeValues exCardC1))
      = "10:00~".data ∧
    (buildFixedTimeRows exCardC1).1 = [" 9:00~".data, "13:00~".data] ∧
    ("13:00~".data : PyStr) ≠ "10:00~".data :=
  ⟨by decide, by decide, by decide, by decide⟩

/-- C1 (amended): when the card has any expanded first/second or
beginner values, `_build_fixed_time_rows` picks `line1` exactly as the
claim states, and picks `line2` as the first night value, else the first
candidate among the non-night afternoon values, then the non-night
unknown values, then all non-night values, that is non-empty and
differs from `line1`; with no values at all it returns the
`"時間未定"` sentinel row. -/
theorem C1_amended (card : DayCard) :
    buildFixedTimeRows card =
      (if cardTimeValues card = [] ∧ expandTimeValues card.beginner_time = [] then
        (["時間未定".data, []], ([] : PyStr))
      else
        ([claimLine1 (cardTimeValues card),
          claimLine2Amended (cardTimeValues card) (claimLine1 (cardTimeValues card))],
         (expandTimeValues card.beginner_time).headD [])) := by
  have hV := mem_cardTimeValues_ne_nil card
  have hVdef : cardTimeValues card
      = expandTimeValues card.first_time ++ expandTimeValues card.second_time := rfl
  simp only [buildFixedTimeRows, ← hVdef]
  by_cases hmt : cardTimeValues card = [] ∧ expandTimeValues card.beginner_time = []
  · rw [if_pos hmt, if_pos hmt]
  · rw [if_neg hmt, if_neg hmt]
    have h1 : codeLine1 (cardTimeValues card) = claimLine1 (cardTimeValues card) :=
      codeLine1_eq_claim _ hV
    have h2 : codeLine2 (cardTimeValues card) (codeLine1 (cardTimeValues card))
        = claimLine2Amended (cardTimeValues card) (claimLine1 (cardTimeValues card)) := by
      rw [h1]
      exact codeLine2_eq_claim _ _ hV
    have hl1 : (if codeLine1 (cardTimeValues card) = []
          ∧ codeLine2 (cardTimeValues card) (codeLine1 (cardTimeValues card)) ≠ []
          ∧ isNightTimeText (codeLine2 (cardTimeValues card) (codeLine1 (cardTimeValues card)))
        then []
        else codeLine1 (cardTimeValues card)) = codeLine1 (cardTimeValues card) := by
      by_cases hcond : codeLine1 (cardTimeValues card) = []
          ∧ codeLine2 (cardTimeValues card) (codeLine1 (cardTimeValues card)) ≠ []
          ∧ isNightTimeText (codeLine2 (cardTimeValues card) (codeLine1 (cardTimeValues card)))
      · rw [if_pos hcond]
        exact hcond.1.symm
      · rw [if_neg hcond]
    rw [hl1, h2, h1]
    rcases hbeg : expandTimeValues card.beginner_time with _ | ⟨b, bs⟩
    · simp
    · simp

/-! ### C4: venue reconciliation -/

theorem mergeEntryTimes_venue (c : DayCard) (e : ScheduleEntry) :
    (mergeEntryTimes c e).venue = c.venue := by
  simp only [mergeEntryTimes]
  split_ifs <;> rfl

theorem mergeEntryTimes_classroom (c : DayCard) (e : ScheduleEntry) :
    (mergeEntryTimes c e).classroom = c.classroom := by
  simp only [mergeEntryTimes]
  split_ifs <;> rfl

theorem updateCardVenue_venue (c : DayCard) (v : PyStr) :
    (updateCardVenue c v).venue = updateVenueVal c.venue v := by
  unfold updateCardVenue updateVenueVal
  split_ifs <;> rfl

theorem updateCardVenue_classroom (c : DayCard) (v : PyStr) :
    (updateCardVenue c v).classroom = c.classroom := by
  unfold updateCardVenue
  split_ifs <;> rfl

/-- Once the sentinel is installed, further venue values keep it. -/
theorem updateVenueVal_multi (v : PyStr) : updateVenueVal multiVenue v = multiVenue := by
  unfold updateVenueVal
  split_ifs with h1 h2 h3
  · rfl
  · exact absurd h2 (by decide)
  · exact absurd rfl h3.2
  · rfl

/-- Folding venues from the sentinel stays at the sentinel. -/
theorem foldl_updateVenueVal_multi :
    ∀ vs : List PyStr, List.foldl updateVenueVal multiVenue vs = multiVenue := by
  intro vs
  induction vs with
  | nil => rfl
  | cons v vs ih =>
    rw [List.foldl_cons, updateVenueVal_multi]
    exact ih

/-- Characterization of the venue fold from a non-empty current value. -/
theorem foldl_updateVenueVal_ne :
    ∀ (vs : List PyStr) (c : PyStr), c ≠ [] →
      List.foldl updateVenueVal c vs
        = if (vs.filter (fun v => !v.isEmpty)).all (fun w => decide (w = c)) then c
          else multiVenue := by
  intro vs
  induction vs with
  | nil => intro c _; rfl
  | cons v vs ih =>
    intro c hc
    rw [List.foldl_cons]
    by_cases hv : v = []
    · have : updateVenueVal c v = c := by
        unfold updateVenueVal
        rw [if_pos hv]
      rw [this, ih c hc, List.filter_cons_of_neg (by simp [hv])]
    · by_cases hcv : c = v
      · have hstep : updateVenueVal c v = c := by
          unfold updateVenueVal
          rw [if_neg hv, if_neg hc, if_neg (fun h => h.1 hcv)]
        have hd : decide (v = c) = true := by simp [hcv]
        rw [hstep, ih c hc, List.filter_cons_of_pos (by simp [hv]), List.all_cons, hd,
          Bool.true_and]
      · have hd : decide (v = c) = false := by
          simp
          exact fun h => hcv h.symm
        by_cases hcm : c = multiVenue
        · have hstep : updateVenueVal c v = c := by
            unfold updateVenueVal
            rw [if_neg hv, if_neg hc, if_neg (fun h => h.2 hcm)]
          rw [hstep, hcm, foldl_updateVenueVal_multi,
            List.filter_cons_of_pos (by simp [hv]), ite_self]
        · have hstep : updateVenueVal c v = multiVenue := by
            unfold updateVenueVal
            rw [if_neg hv, if_neg hc, if_pos ⟨fun h => hcv h, hcm⟩]
          rw [hstep, foldl_updateVenueVal_multi,
            List.filter_cons_of_pos (by simp [hv]), List.all_cons, hd,
            Bool.false_and, if_neg (by simp)]

/-- The venue fold from the empty string computes the claim's
first-non-empty / sentinel resolution. -/
theorem foldl_updateVenueVal_nil :
    ∀ vs : List PyStr, List.foldl updateVenueVal [] vs = resolveVenueSpec vs := by
  intro vs
  induction vs with
  | nil => rfl
  | cons v vs ih =>
    by_cases hv : v = []
    · have : updateVenueVal [] v = [] := by
        unfold updateVenueVal
        rw [if_pos hv]
      rw [List.foldl_cons, this, ih]
      unfold resolveVenueSpec
      rw [List.filter_cons_of_neg (by simp [hv])]
    · have : updateVenueVal [] v = v := by
        unfold updateVenueVal
        rw [if_neg hv, if_pos rfl]
      rw [List.foldl_cons, this, foldl_updateVenueVal_ne vs v hv]
      unfold resolveVenueSpec
      rw [List.filter_cons_of_pos (by simp [hv])]

theorem lookupCard_append (k key : PyStr) (c : DayCard) :
    ∀ s, lookupCard k (s ++ [(key, c)])
      = match lookupCard k s with
        | some c0 => some c0
        | none => if key = k then some c else none := by
  intro s
  induction s with
  | nil => rfl
  | cons kc s ih =>
    rcases kc with ⟨k0, c0⟩
    rw [List.cons_append]
    unfold lookupCard
    by_cases h : k0 = k
    · rw [if_pos h, if_pos h]
    · rw [if_neg h, if_neg h]
      exact ih

theorem lookupCard_setCard_self (key : PyStr) (c : DayCard) :
    ∀ s, lookupCard key s ≠ none → lookupCard key (setCard key c s) = some c := by
  intro s
  induction s with
  | nil => intro h; exact absurd rfl h
  | cons kc s ih =>
    rcases kc with ⟨k0, c0⟩
    intro h
    by_cases hk : k0 = key
    · unfold setCard
      rw [if_pos hk]
      unfold lookupCard
      rw [if_pos hk]
    · unfold setCard
      rw [if_neg hk]
      unfold lookupCard
      rw [if_neg hk]
      apply ih
      unfold lookupCard at h
      rw [if_neg hk] at h
      exact h

theorem lookupCard_setCard_other (key : PyStr) (c : DayCard) (k : PyStr) (hk : k ≠ key) :
    ∀ s, lookupCard k (setCard key c s) = lookupCard k s := by
  intro s
  induction s with
  | nil => rfl
  | cons kc s ih =>
    rcases kc with ⟨k0, c0⟩
    by_cases h0 : k0 = key
    · unfold setCard
      rw [if_pos h0]
      unfold lookupCard
      rw [if_neg (h0 ▸ fun h => hk h.symm), if_neg (h0 ▸ fun h => hk h.symm)]
    · unfold setCard
      rw [if_neg h0]
      unfold lookupCard
      split_ifs with h1
      · rfl
      · exact ih

theorem setCard_map_fst (key : PyStr) (c : DayCard) :
    ∀ s, (setCard key c s).map Prod.fst = s.map Prod.fst := by
  intro s
  induction s with
  | nil => rfl
  | cons kc s ih =>
    rcases kc with ⟨k0, c0⟩
    unfold setCard
    split_ifs with h
    · rfl
    · rw [List.map_cons, List.map_cons, ih]

theorem lookupCard_eq_none_iff (k : PyStr) :
    ∀ s, lookupCard k s = none ↔ k ∉ s.map Prod.fst := by
  intro s
  induction s with
  | nil => simp [lookupCard]
  | cons kc s ih =>
    rcases kc with ⟨k0, c0⟩
    unfold lookupCard
    by_cases h : k0 = k
    · rw [if_pos h, List.map_cons, h]
      constructor
      · intro hsome
        exact absurd hsome (Option.some_ne_none c0)
      · intro hmem
        exact absurd (List.mem_cons_self k _) hmem
    · rw [if_neg h]
      rw [List.map_cons]
      constructor
      · intro hn hmem
        rcases List.mem_cons.mp hmem with hh | ht
        · exact h hh.symm
        · exact (ih.mp hn) ht
      · intro hmem
        exact ih.mpr (fun ht => hmem (List.mem_cons_of_mem _ ht))

theorem lookupCard_of_mem {k : PyStr} {c : DayCard} :
    ∀ {s}, (k, c) ∈ s → (s.map Prod.fst).Nodup → lookupCard k s = some c := by
  intro s
  induction s with
  | nil => intro h _; exact absurd h (List.not_mem_nil _)
  | cons kc s ih =>
    rcases kc with ⟨k0, c0⟩
    intro hmem hnd
    rw [List.map_cons, List.nodup_cons] at hnd
    rcases List.mem_cons.mp hmem with hh | ht
    · injection hh with hk hc
      unfold lookupCard
      rw [if_pos hk.symm, ← hc]
    · unfold lookupCard
      by_cases h0 : k0 = k
      · exfalso
        apply hnd.1
        rw [h0]
        have hmap : Prod.fst (k, c) ∈ List.map Prod.fst s := List.mem_map_of_mem Prod.fst ht
        exact hmap
      · rw [if_neg h0]
        exact ih ht hnd.2

/-- The grouping-loop invariant holds initially. -/
theorem venueInv_nil : VenueInv [] [] := by
  refine ⟨List.nodup_nil, fun k _ => rfl, fun k c hc => ?_⟩
  exact absurd hc (by simp [lookupCard])

/-- One loop iteration preserves the grouping invariant. -/
theorem venueInv_step {processed : List ScheduleEntry} {state : List (PyStr × DayCard)}
    (e : ScheduleEntry) (h : VenueInv processed state) :
    VenueInv (processed ++ [e]) (addEntryToState state e) := by
  obtain ⟨hnd, hnone, hsome⟩ := h
  have haddEq : addEntryToState state e
      = match lookupCard (entryKeyOf e) state with
        | none => state ++ [(entryKeyOf e,
            mergeEntryTimes { classroom := pyStrip e.classroom, venue := pyStrip e.venue } e)]
        | some card => setCard (entryKeyOf e)
            (mergeEntryTimes (updateCardVenue card (pyStrip e.venue)) e) state := rfl
  have hfilter_eq : ∀ k, (processed ++ [e]).filter (fun x => decide (entryKeyOf x = k))
      = processed.filter (fun x => decide (entryKeyOf x = k))
        ++ (if entryKeyOf e = k then [e] else []) := by
    intro k
    rw [List.filter_append]
    congr 1
    by_cases hk : entryKeyOf e = k
    · rw [if_pos hk]
      simp [hk]
    · rw [if_neg hk]
      simp [hk]
  cases hl : lookupCard (entryKeyOf e) state with
  | none =>
    have hstate : addEntryToState state e = state ++ [(entryKeyOf e,
        mergeEntryTimes { classroom := pyStrip e.classroom, venue := pyStrip e.venue } e)] := by
      rw [haddEq, hl]
    rw [hstate]
    have hkeynot : entryKeyOf e ∉ state.map Prod.fst := (lookupCard_eq_none_iff _ state).mp hl
    refine ⟨?_, ?_, ?_⟩
    · rw [List.map_append]
      refine List.Nodup.append hnd (List.nodup_singleton _) ?_
      intro a ha hb
      rw [List.map_cons, List.map_nil, List.mem_singleton] at hb
      rw [hb] at ha
      exact hkeynot ha
    · intro k hlk
      rw [lookupCard_append] at hlk
      cases hlk0 : lookupCard k state with
      | some c0 =>
        rw [hlk0] at hlk
        exact absurd hlk (by simp)
      | none =>
        rw [hlk0] at hlk
        by_cases hk : entryKeyOf e = k
        · rw [if_pos hk] at hlk
          exact absurd hlk (by simp)
        · rw [hfilter_eq k, if_neg hk, hnone k hlk0]
          rfl
    · intro k c hc
      rw [lookupCard_append] at hc
      cases hlk0 : lookupCard k state with
      | some c0 =>
        rw [hlk0] at hc
        have hcc : c0 = c := Option.some_inj.mp hc
        have hk : ¬ entryKeyOf e = k := by
          intro hkk
          rw [hkk] at hl
          rw [hl] at hlk0
          exact absurd hlk0 (by simp)
        rw [hfilter_eq k, if_neg hk, List.append_nil]
        rcases hsome k c0 hlk0 with ⟨hkey0, hven0⟩
        rw [← hcc]
        exact ⟨hkey0, hven0⟩
      | none =>
        rw [hlk0] at hc
        by_cases hk : entryKeyOf e = k
        · rw [if_pos hk] at hc
          have hcc := Option.some_inj.mp hc
          rw [← hcc]
          constructor
          · have hcl : (mergeEntryTimes
                { classroom := pyStrip e.classroom, venue := pyStrip e.venue } e).classroom
                = pyStrip e.classroom := mergeEntryTimes_classroom _ _
            unfold cardKeyOf
            rw [hcl]
            unfold entryKeyOf at hk
            exact hk
          · rw [hfilter_eq k, if_pos hk, hnone k hlk0, List.nil_append]
            rw [mergeEntryTimes_venue]
            show pyStrip e.venue = List.foldl updateVenueVal [] [pyStrip e.venue]
            rw [List.foldl_cons, List.foldl_nil]
            unfold updateVenueVal
            by_cases hv : pyStrip e.venue = []
            · rw [if_pos hv, hv]
            · rw [if_neg hv, if_pos rfl]
        · rw [if_neg hk] at hc
          exact absurd hc (by simp)
  | some card =>
    have hstate : addEntryToState state e = setCard (entryKeyOf e)
        (mergeEntryTimes (updateCardVenue card (pyStrip e.venue)) e) state := by
      rw [haddEq, hl]
    rw [hstate]
    have hlne : lookupCard (entryKeyOf e) state ≠ none := by
      rw [hl]
      simp
    refine ⟨?_, ?_, ?_⟩
    · rw [setCard_map_fst]
      exact hnd
    · intro k hlk
      by_cases hk : k = entryKeyOf e
      · exfalso
        rw [hk, lookupCard_setCard_self _ _ state hlne] at hlk
        exact absurd hlk (by simp)
      · rw [lookupCard_setCard_other _ _ k hk state] at hlk
        rw [hfilter_eq k, hnone k hlk, if_neg (fun hkk => hk hkk.symm)]
        rfl
    · intro k c hc
      by_cases hk : k = entryKeyOf e
      · subst hk
        rw [lookupCard_setCard_self _ _ state hlne] at hc
        have hcc := Option.some_inj.mp hc
        rw [← hcc]
        rcases hsome _ card hl with ⟨hkey0, hven0⟩
        constructor
        · have h1 : (mergeEntryTimes (updateCardVenue card (pyStrip e.venue)) e).classroom
              = card.classroom := by
            rw [mergeEntryTimes_classroom, updateCardVenue_classroom]
          unfold cardKeyOf at hkey0 ⊢
          rw [h1]
          exact hkey0
        · have h2 : (mergeEntryTimes (updateCardVenue card (pyStrip e.venue)) e).venue
              = updateVenueVal card.venue (pyStrip e.venue) := by
            rw [mergeEntryTimes_venue, updateCardVenue_venue]
          rw [h2, hven0, hfilter_eq, if_pos rfl, List.map_append, List.foldl_append]
          rfl
      · rw [lookupCard_setCard_other _ _ k hk state] at hc
        rcases hsome k c hc with ⟨hkey0, hven0⟩
        refine ⟨hkey0, ?_⟩
        rw [hfilter_eq, if_neg (fun hkk => hk hkk.symm), List.append_nil]
        exact hven0

/-- The grouping invariant after folding a whole entry list. -/
theorem venueInv_foldl :
    ∀ (l : List ScheduleEntry) (processed : List ScheduleEntry)
      (state : List (PyStr × DayCard)), VenueInv processed state →
      VenueInv (processed ++ l) (l.foldl addEntryToState state) := by
  intro l
  induction l with
  | nil =>
    intro processed state h
    rw [List.append_nil]
    exact h
  | cons e l ih =>
    intro processed state h
    rw [List.foldl_cons]
    have := ih (processed ++ [e]) (addEntryToState state e) (venueInv_step e h)
    rw [List.append_assoc] at this
    exact this

theorem mem_insertBy {α : Type} (le : α → α → Bool) (x y : α) :
    ∀ l, y ∈ insertBy le x l ↔ y = x ∨ y ∈ l := by
  intro l
  induction l with
  | nil => simp [insertBy]
  | cons a l ih =>
    unfold insertBy
    by_cases hle : le a x
    · rw [if_pos hle]
      constructor
      · intro hm
        rcases List.mem_cons.mp hm with rfl | hm
        · exact Or.inr (List.mem_cons_self _ _)
        · rcases ih.mp hm with hx | hm
          · exact Or.inl hx
          · exact Or.inr (List.mem_cons_of_mem _ hm)
      · intro hm
        rcases hm with hx | hm
        · exact List.mem_cons_of_mem _ (ih.mpr (Or.inl hx))
        · rcases List.mem_cons.mp hm with rfl | hm
          · exact List.mem_cons_self _ _
          · exact List.mem_cons_of_mem _ (ih.mpr (Or.inr hm))
    · rw [if_neg hle]
      constructor
      · intro hm
        rcases List.mem_cons.mp hm with rfl | hm
        · exact Or.inl rfl
        · exact Or.inr hm
      · intro hm
        rcases hm with rfl | hm
        · exact List.mem_cons_self _ _
        · exact List.mem_cons_of_mem _ hm

theorem mem_foldl_insertBy {α : Type} (le : α → α → Bool) (y : α) :
    ∀ (l acc : List α),
      (y ∈ l.foldl (fun acc x => insertBy le x acc) acc) ↔ (y ∈ acc ∨ y ∈ l) := by
  intro l
  induction l with
  | nil => simp
  | cons e l ih =>
    intro acc
    rw [List.foldl_cons, ih]
    rw [mem_insertBy]
    constructor
    · intro hm
      rcases hm with (rfl | hm) | hm
      · exact Or.inr (List.mem_cons_self _ _)
      · exact Or.inl hm
      · exact Or.inr (List.mem_cons_of_mem _ hm)
    · intro hm
      rcases hm with hm | hm
      · exact Or.inl (Or.inr hm)
      · rcases List.mem_cons.mp hm with rfl | hm
        · exact Or.inl (Or.inl rfl)
        · exact Or.inr hm

/-- A stable sort permutes membership. -/
theorem mem_stableSortBy {α : Type} (le : α → α → Bool) (y : α) (l : List α) :
    y ∈ stableSortBy le l ↔ y ∈ l := by
  unfold stableSortBy
  rw [mem_foldl_insertBy]
  simp

theorem foldl_backfillStep_venue :
    ∀ (l : List PyStr) (c : DayCard), (List.foldl backfillStep c l).venue = c.venue := by
  intro l
  induction l with
  | nil => intro c; rfl
  | cons t l ih =>
    intro c
    rw [List.foldl_cons, ih]
    unfold backfillStep
    split_ifs <;> rfl

theorem foldl_backfillStep_classroom :
    ∀ (l : List PyStr) (c : DayCard), (List.foldl backfillStep c l).classroom = c.classroom := by
  intro l
  induction l with
  | nil => intro c; rfl
  | cons t l ih =>
    intro c
    rw [List.foldl_cons, ih]
    unfold backfillStep
    split_ifs <;> rfl

theorem backfillCard_venue (c : DayCard) : (backfillCard c).venue = c.venue :=
  foldl_backfillStep_venue c.other_times c

theorem backfillCard_classroom (c : DayCard) : (backfillCard c).classroom = c.classroom :=
  foldl_backfillStep_classroom c.other_times c

/-- C4: in each group built by `_build_day_cards`, the card's venue is
the first non-empty venue seen (in processing order) unless a later
entry of the group carries a different non-empty venue, in which case it
is the "複数会場" sentinel; the sentinel is idempotent (further venue
values keep it); and the reconciliation is a total function — it never
raises. -/
theorem C4_venue_reconciliation (events : List ScheduleEntry) (card : DayCard)
    (h : card ∈ buildDayCards events) :
    (card.venue = resolveVenueSpec
      (((sortEntries events).filter (fun e => decide (entryKeyOf e = cardKeyOf card))).map
        (fun e => pyStrip e.venue))) ∧
    (∀ v, updateVenueVal multiVenue v = multiVenue) ∧
    (card.venue = multiVenue → ∀ venue, (updateCardVenue card venue).venue = multiVenue) := by
  refine ⟨?_, updateVenueVal_multi, ?_⟩
  · have hb : card ∈ ((((sortEntries events).foldl addEntryToState []).map
        (fun p => p.2)).map backfillCard) := by
      have hbd : buildDayCards events
          = stableSortBy cardLe ((((sortEntries events).foldl addEntryToState []).map
            (fun p => p.2)).map backfillCard) := rfl
      rw [hbd] at h
      exact (mem_stableSortBy _ _ _).mp h
    rcases List.mem_map.mp hb with ⟨c0, hc0, hback⟩
    rcases List.mem_map.mp hc0 with ⟨⟨k, c1⟩, hpair, hsnd⟩
    have hInv := venueInv_foldl (sortEntries events) [] [] venueInv_nil
    rw [List.nil_append] at hInv
    obtain ⟨hnd, _, hsome⟩ := hInv
    have hlook : lookupCard k ((sortEntries events).foldl addEntryToState []) = some c1 :=
      lookupCard_of_mem hpair hnd
    rcases hsome k c1 hlook with ⟨hkey, hven⟩
    have hcv : card.venue = c1.venue := by
      rw [← hback, backfillCard_venue, ← hsnd]
    have hcl : card.classroom = c1.classroom := by
      rw [← hback, backfillCard_classroom, ← hsnd]
    have hkeq : cardKeyOf card = k := by
      unfold cardKeyOf at hkey ⊢
      rw [hcl]
      exact hkey
    rw [hkeq, hcv, hven]
    exact foldl_updateVenueVal_nil _
  · intro hm venue
    rw [updateCardVenue_venue, hm]
    exact updateVenueVal_multi venue

/-- C4 witness: two same-classroom entries with different non-empty
venues produce the multiple-venue sentinel. -/
theorem C4_venue_reconciliation_witness :
    exCardC4 ∈ buildDayCards [venEntryA, venEntryB] ∧
    exCardC4.venue = resolveVenueSpec
      (((sortEntries [venEntryA, venEntryB]).filter
        (fun e => decide (entryKeyOf e = cardKeyOf exCardC4))).map (fun e => pyStrip e.venue)) :=
  ⟨by decide, (C4_venue_reconciliation [venEntryA, venEntryB] exCardC4 (by decide)).1⟩

/-! ### C5: merge duplicate suppression and idempotence -/

/-- A clean value is in particular non-empty. -/
theorem clean_ne_nil {v : PyStr} (h : CleanTimeVal v) : v ≠ [] := by
  intro hnil
  apply h.1
  rw [hnil]
  rfl

/-- Step equation of `splitSlash` for lists of length at least three. -/
theorem splitSlash_step_three (c c2 c3 : Char) (rest acc : PyStr) :
    splitSlash (c :: c2 :: c3 :: rest) acc
      = if c = ' ' ∧ c2 = '/' ∧ c3 = ' ' then acc.reverse :: splitSlash rest []
        else splitSlash (c2 :: c3 :: rest) (c :: acc) := rfl

/-- Splitting a slash-free string yields a single segment. -/
theorem splitSlash_no_slash :
    ∀ (v : PyStr), '/' ∉ v → ∀ (acc : PyStr), splitSlash v acc = [acc.reverse ++ v] := by
  intro v
  induction v with
  | nil =>
    intro _ acc
    simp [splitSlash]
  | cons a v' ih =>
    intro hs acc
    have hs' : '/' ∉ v' := fun h => hs (List.mem_cons_of_mem _ h)
    cases v' with
    | nil =>
      show [(a :: acc).reverse] = [acc.reverse ++ [a]]
      simp
    | cons b v'' =>
      have hb : b ≠ '/' := fun h => hs' (by rw [h]; exact List.mem_cons_self _ _)
      cases v'' with
      | nil =>
        show splitSlash [b] (a :: acc) = [acc.reverse ++ [a, b]]
        rw [ih hs' (a :: acc)]
        simp
      | cons c v₃ =>
        rw [splitSlash_step_three, if_neg (fun hg => hb hg.2.1), ih hs' (a :: acc)]
        simp

/-- Splitting a clean value followed by a separator peels off exactly
that value. -/
theorem splitSlash_clean_append :
    ∀ (v : PyStr), '/' ∉ v → ∀ (w acc : PyStr),
      splitSlash (v ++ ' ' :: '/' :: ' ' :: w) acc
        = (acc.reverse ++ v) :: splitSlash w [] := by
  intro v
  induction v with
  | nil =>
    intro _ w acc
    rw [List.nil_append, splitSlash_step_three, if_pos ⟨rfl, rfl, rfl⟩]
    simp
  | cons a v' ih =>
    intro hs w acc
    have hs' : '/' ∉ v' := fun h => hs (List.mem_cons_of_mem _ h)
    cases v' with
    | nil =>
      show splitSlash (a :: ' ' :: '/' :: ' ' :: w) acc = _
      rw [splitSlash_step_three, if_neg (fun hg => absurd hg.2.1 (by decide))]
      have h2 := ih hs' w (a :: acc)
      rw [List.nil_append] at h2
      rw [h2]
      simp
    | cons b v'' =>
      have hb : b ≠ '/' := fun h => hs' (by rw [h]; exact List.mem_cons_self _ _)
      cases v'' with
      | nil =>
        show splitSlash (a :: b :: ' ' :: '/' :: ' ' :: w) acc = _
        rw [splitSlash_step_three, if_neg (fun hg => hb hg.2.1)]
        have h2 := ih hs' w (a :: acc)
        rw [show ([b] ++ ' ' :: '/' :: ' ' :: w) = b :: ' ' :: '/' :: ' ' :: w from rfl] at h2
        rw [h2]
        simp
      | cons c v₃ =>
        show splitSlash (a :: b :: c :: (v₃ ++ ' ' :: '/' :: ' ' :: w)) acc = _
        rw [splitSlash_step_three, if_neg (fun hg => hb hg.2.1)]
        have h2 := ih hs' w (a :: acc)
        rw [show ((b :: c :: v₃) ++ ' ' :: '/' :: ' ' :: w)
            = b :: c :: (v₃ ++ ' ' :: '/' :: ' ' :: w) from rfl] at h2
        rw [h2]
        simp

/-- Splitting a join of clean values recovers the values. -/
theorem splitSlash_join_cons :
    ∀ (vs' : List PyStr) (v : PyStr), '/' ∉ v → (∀ u ∈ vs', '/' ∉ u) →
      ∀ acc, splitSlash (joinSep (v :: vs')) acc = (acc.reverse ++ v) :: vs' := by
  intro vs'
  induction vs' with
  | nil =>
    intro v hv _ acc
    exact splitSlash_no_slash v hv acc
  | cons u vs'' ih =>
    intro v hv hu acc
    have hj : joinSep (v :: u :: vs'') = v ++ ' ' :: '/' :: ' ' :: joinSep (u :: vs'') := rfl
    rw [hj, splitSlash_clean_append v hv (joinSep (u :: vs'')) acc]
    rw [ih u (hu u (List.mem_cons_self _ _)) (fun w hw => hu w (List.mem_cons_of_mem _ hw)) []]
    simp

/-- `s.split(" / ")` of a join of clean values is those values. -/
theorem pySplitSlash_join (vs : List PyStr) (hne : vs ≠ [])
    (hcl : ∀ v ∈ vs, '/' ∉ v) : pySplitSlash (joinSep vs) = vs := by
  cases vs with
  | nil => exact absurd rfl hne
  | cons v vs' =>
    unfold pySplitSlash
    rw [splitSlash_join_cons vs' v (hcl v (List.mem_cons_self _ _))
      (fun u hu => hcl u (List.mem_cons_of_mem _ hu)) []]
    simp

/-- The filter-map of `timeValuesOf` keeps every clean value (rstripped). -/
theorem filterMap_clean (l : List PyStr) (hcl : ∀ v ∈ l, CleanTimeVal v) :
    l.filterMap (fun v => if (pyStrip v).isEmpty then none else some (pyRstrip v))
      = l.map pyRstrip := by
  induction l with
  | nil => rfl
  | cons v l ih =>
    have hv : ((pyStrip v).isEmpty) = false := by
      cases he : (pyStrip v).isEmpty
      · rfl
      · exact absurd (List.isEmpty_iff.mp he) (hcl v (List.mem_cons_self _ _)).1
    rw [List.filterMap_cons]
    simp only [hv, Bool.false_eq_true, if_false]
    rw [ih (fun u hu => hcl u (List.mem_cons_of_mem _ hu))]
    rfl

/-- The normalized value list of a join of clean values. -/
theorem timeValuesOf_join (vs : List PyStr) (hne : vs ≠ [])
    (hcl : ∀ v ∈ vs, CleanTimeVal v) :
    timeValuesOf (joinSep vs) = vs.map pyRstrip := by
  unfold timeValuesOf
  rw [pySplitSlash_join vs hne (fun v hv => (hcl v hv).2)]
  exact filterMap_clean vs hcl

/-- Appending one more value to a non-empty join. -/
theorem joinSep_append_single :
    ∀ (vs : List PyStr) (t : PyStr), vs ≠ [] →
      joinSep (vs ++ [t]) = joinSep vs ++ ' ' :: '/' :: ' ' :: t := by
  intro vs
  induction vs with
  | nil => intro t h; exact absurd rfl h
  | cons v vs' ih =>
    intro t _
    cases vs' with
    | nil => rfl
    | cons u vs'' =>
      have h1 : joinSep ((v :: u :: vs'') ++ [t])
          = v ++ ' ' :: '/' :: ' ' :: joinSep ((u :: vs'') ++ [t]) := rfl
      rw [h1, ih t (by simp)]
      have h2 : joinSep (v :: u :: vs'') = v ++ ' ' :: '/' :: ' ' :: joinSep (u :: vs'') := rfl
      rw [h2]
      simp

/-- A join of clean values is non-empty. -/
theorem joinSep_ne_nil (vs : List PyStr) (hne : vs ≠ [])
    (hcl : ∀ v ∈ vs, CleanTimeVal v) : joinSep vs ≠ [] := by
  cases vs with
  | nil => exact absurd rfl hne
  | cons v vs' =>
    have hv : v ≠ [] := clean_ne_nil (hcl v (List.mem_cons_self _ _))
    cases vs' with
    | nil => exact hv
    | cons u vs'' =>
      have h1 : joinSep (v :: u :: vs'') = v ++ ' ' :: '/' :: ' ' :: joinSep (u :: vs'') := rfl
      rw [h1]
      cases v with
      | nil => exact absurd rfl hv
      | cons a as => simp

/-- Merging a clean value into itself is a no-op. -/
theorem mergeTimeText_self {t : PyStr} (ht : CleanTimeVal t) : mergeTimeText t t = t := by
  have htne : t ≠ [] := clean_ne_nil ht
  have hvals : timeValuesOf t = [pyRstrip t] := by
    have h1 : joinSep [t] = t := rfl
    have h2 := timeValuesOf_join [t] (by simp) (by intro v hv; rw [List.mem_singleton.mp hv]; exact ht)
    rw [h1] at h2
    rw [h2]
    rfl
  unfold mergeTimeText
  rw [if_neg htne, if_neg htne, if_pos (by rw [hvals]; exact List.mem_singleton_self _)]

/-- C5 counterexample: merging the two-value text `"a / b"` into the
empty field twice duplicates it — idempotence fails for texts that
contain the separator. -/
theorem C5_counterexample :
    mergeTimeText (mergeTimeText [] "a / b".data) "a / b".data = "a / b / a / b".data ∧
    mergeTimeText [] "a / b".data = "a / b".data ∧
    ("a / b / a / b".data : PyStr) ≠ "a / b".data :=
  ⟨by decide, by decide, by decide⟩

/-- C5 (amended): `_merge_time_text` appends with the `" / "` separator
and returns the existing string unchanged when the rstripped new text
already appears among the rstripped non-blank separated values; and for
a *single* clean time value (non-blank, no slash — as every formatted
time range is) merged into a well-formed time field (a `" / "`-join of
clean values, as the day-card builder produces), merging twice equals
merging once.  Rebuilding day-cards from the same entry list trivially
yields identical values since the embedded builder is a pure function. -/
theorem C5_merge_idempotent (e t : PyStr) (he : MergedTimeField e) (ht : CleanTimeVal t) :
    (pyRstrip t ∈ timeValuesOf e → mergeTimeText e t = e) ∧
    mergeTimeText (mergeTimeText e t) t = mergeTimeText e t := by
  have htne : t ≠ [] := clean_ne_nil ht
  constructor
  · intro hmem
    unfold mergeTimeText
    rw [if_neg htne]
    by_cases hene : e = []
    · exfalso
      rw [hene] at hmem
      have hval : timeValuesOf ([] : PyStr) = [] := rfl
      rw [hval] at hmem
      exact List.not_mem_nil _ hmem
    · rw [if_neg hene, if_pos hmem]
  · rcases he with rfl | ⟨vs, hvs, hclvs, rfl⟩
    · have h1 : mergeTimeText [] t = t := by
        unfold mergeTimeText
        rw [if_neg htne, if_pos rfl]
      rw [h1]
      exact mergeTimeText_self ht
    · have hene : joinSep vs ≠ [] := joinSep_ne_nil vs hvs hclvs
      by_cases hmem : pyRstrip t ∈ timeValuesOf (joinSep vs)
      · have h1 : mergeTimeText (joinSep vs) t = joinSep vs := by
          unfold mergeTimeText
          rw [if_neg htne, if_neg hene, if_pos hmem]
        rw [h1, h1]
      · have h1 : mergeTimeText (joinSep vs) t = joinSep vs ++ " / ".data ++ t := by
          unfold mergeTimeText
          rw [if_neg htne, if_neg hene, if_neg hmem]
        have hjoin2 : joinSep vs ++ " / ".data ++ t = joinSep (vs ++ [t]) := by
          rw [joinSep_append_single vs t hvs, List.append_assoc]
          rfl
        have hcl2 : ∀ v ∈ vs ++ [t], CleanTimeVal v := by
          intro v hv
          rcases List.mem_append.mp hv with h | h
          · exact hclvs v h
          · rw [List.mem_singleton.mp h]
            exact ht
        have hvals2 : timeValuesOf (joinSep (vs ++ [t])) = (vs ++ [t]).map pyRstrip :=
          timeValuesOf_join _ (by simp) hcl2
        have hmem2 : pyRstrip t ∈ timeValuesOf (joinSep (vs ++ [t])) := by
          rw [hvals2, List.map_append]
          exact List.mem_append_right _ (by simp)
        have hne2 : joinSep (vs ++ [t]) ≠ [] := joinSep_ne_nil _ (by simp) hcl2
        rw [h1, hjoin2]
        unfold mergeTimeText
        rw [if_neg htne, if_neg hne2, if_pos hmem2]

/-- C5 witness: merging `"10:00~"` into the field `"12:00~16:00"` twice
equals merging it once. -/
theorem C5_merge_idempotent_witness :
    MergedTimeField "12:00~16:00".data ∧ CleanTimeVal "10:00~".data ∧
    mergeTimeText (mergeTimeText "12:00~16:00".data "10:00~".data) "10:00~".data
      = mergeTimeText "12:00~16:00".data "10:00~".data :=
  ⟨Or.inr ⟨["12:00~16:00".data], by decide,
      (fun v hv => by rw [List.mem_singleton.mp hv]; exact ⟨by decide, by decide⟩), rfl⟩,
    ⟨by decide, by decide⟩,
    (C5_merge_idempotent "12:00~16:00".data "10:00~".data
      (Or.inr ⟨["12:00~16:00".data], by decide,
        (fun v hv => by rw [List.mem_singleton.mp hv]; exact ⟨by decide, by decide⟩), rfl⟩)
      ⟨by decide, by decide⟩).2⟩

/-! ### C9: entry construction from arbitrary JSON records -/

theorem dateKeyLoop_step_skip (parse : ParseFn) (d : List (String × JVal)) (k : String)
    (rest : List String) (hd : dictGet d k = none ∨ dictGet d k = some JVal.vnull) :
    dateKeyLoop parse d (k :: rest) = dateKeyLoop parse d rest := by
  conv_lhs => rw [dateKeyLoop]
  rcases hd with hd | hd <;> rw [hd]

theorem dateKeyLoop_step_val (parse : ParseFn) (d : List (String × JVal)) (k : String)
    (rest : List String) {v0 : JVal} (hd : dictGet d k = some v0) (hnn : v0 ≠ JVal.vnull) :
    dateKeyLoop parse d (k :: rest)
      = match parse v0 none with
        | (some day, odt) => some (day, odt)
        | (none, _) => dateKeyLoop parse d rest := by
  conv_lhs => rw [dateKeyLoop]
  rw [hd]
  cases v0 with
  | vnull => exact absurd rfl hnn
  | vstr s => rfl
  | vnum r => rfl
  | vlist l => rfl

/-- Cons step of the no-day characterization, for a non-null value. -/
theorem dateKeyLoop_none_iff_cons_val (parse : ParseFn) (d : List (String × JVal))
    (k : String) (rest : List String)
    (ih : dateKeyLoop parse d rest = none ↔
      ∀ k' ∈ rest, ∀ v, dictGet d k' = some v → v ≠ JVal.vnull → (parse v none).1 = none)
    {v0 : JVal} (hd : dictGet d k = some v0) (hnn : v0 ≠ JVal.vnull) :
    (dateKeyLoop parse d (k :: rest) = none ↔
      ∀ k' ∈ k :: rest, ∀ v, dictGet d k' = some v → v ≠ JVal.vnull →
        (parse v none).1 = none) := by
  rcases hp : parse v0 none with ⟨pd, podt⟩
  rw [dateKeyLoop_step_val parse d k rest hd hnn, hp]
  cases pd with
  | some day =>
    constructor
    · intro h
      exact Option.noConfusion h
    · intro h
      have hx := h k (List.mem_cons_self _ _) v0 hd hnn
      rw [hp] at hx
      exact absurd hx (Option.noConfusion)
  | none =>
    show dateKeyLoop parse d rest = none ↔ _
    rw [ih]
    constructor
    · intro h k' hk' v hv hnull
      rcases List.mem_cons.mp hk' with rfl | hk'
      · have hvv : v = v0 := by
          rw [hd] at hv
          exact (Option.some_inj.mp hv).symm
        rw [hvv, hp]
      · exact h k' hk' v hv hnull
    · intro h k' hk' v hv hnull
      exact h k' (List.mem_cons_of_mem _ hk') v hv hnull

/-- The date-key loop finds no day exactly when no key's non-null value
parses to one. -/
theorem dateKeyLoop_none_iff (parse : ParseFn) (d : List (String × JVal)) :
    ∀ keys : List String, (dateKeyLoop parse d keys = none ↔
      ∀ k ∈ keys, ∀ v, dictGet d k = some v → v ≠ JVal.vnull → (parse v none).1 = none) := by
  intro keys
  induction keys with
  | nil => simp [dateKeyLoop]
  | cons k rest ih =>
    cases hd : dictGet d k with
    | none =>
      rw [dateKeyLoop_step_skip parse d k rest (Or.inl hd), ih]
      constructor
      · intro h k' hk' v hv hnull
        rcases List.mem_cons.mp hk' with rfl | hk'
        · rw [hd] at hv
          cases hv
        · exact h k' hk' v hv hnull
      · intro h k' hk' v hv hnull
        exact h k' (List.mem_cons_of_mem _ hk') v hv hnull
    | some v0 =>
      cases v0 with
      | vnull =>
        rw [dateKeyLoop_step_skip parse d k rest (Or.inr hd), ih]
        constructor
        · intro h k' hk' v hv hnull
          rcases List.mem_cons.mp hk' with rfl | hk'
          · rw [hd] at hv
            exact absurd (Option.some_inj.mp hv).symm hnull
          · exact h k' hk' v hv hnull
        · intro h k' hk' v hv hnull
          exact h k' (List.mem_cons_of_mem _ hk') v hv hnull
      | vstr s =>
        exact dateKeyLoop_none_iff_cons_val parse d k rest ih hd
          (fun hcon => JVal.noConfusion hcon)
      | vnum r =>
        exact dateKeyLoop_none_iff_cons_val parse d k rest ih hd
          (fun hcon => JVal.noConfusion hcon)
      | vlist l =>
        exact dateKeyLoop_none_iff_cons_val parse d k rest ih hd
          (fun hcon => JVal.noConfusion hcon)

theorem startFallbackLoop_step_skip (parse : ParseFn) (d : List (String × JVal)) (day : Nat)
    (k : String) (rest : List String)
    (hd : dictGet d k = none ∨ dictGet d k = some JVal.vnull) :
    startFallbackLoop parse d day (k :: rest) = startFallbackLoop parse d day rest := by
  conv_lhs => rw [startFallbackLoop]
  rcases hd with hd | hd <;> rw [hd]

theorem startFallbackLoop_step_val (parse : ParseFn) (d : List (String × JVal)) (day : Nat)
    (k : String) (rest : List String) {v0 : JVal} (hd : dictGet d k = some v0)
    (hnn : v0 ≠ JVal.vnull) :
    startFallbackLoop parse d day (k :: rest)
      = match parse v0 (some day) with
        | (pd, some dt) => (pd.getD day, some dt)
        | (_, none) => startFallbackLoop parse d day rest := by
  conv_lhs => rw [startFallbackLoop]
  rw [hd]
  cases v0 with
  | vnull => exact absurd rfl hnn
  | vstr s => rfl
  | vnum r => rfl
  | vlist l => rfl

/-- With every start key unparsable (as a time), the fallback loop
leaves day and start untouched. -/
theorem startFallbackLoop_all_none (parse : ParseFn) (d : List (String × JVal)) (day : Nat) :
    ∀ keys : List String,
      (∀ k ∈ keys, ∀ v, dictGet d k = some v → v ≠ JVal.vnull → (parse v (some day)).2 = none) →
      startFallbackLoop parse d day keys = (day, none) := by
  intro keys
  induction keys with
  | nil => intro _; rfl
  | cons k rest ih =>
    intro h
    have htail := fun k' hk' => h k' (List.mem_cons_of_mem _ hk')
    cases hd : dictGet d k with
    | none =>
      rw [startFallbackLoop_step_skip parse d day k rest (Or.inl hd)]
      exact ih htail
    | some v0 =>
      have hgen : v0 ≠ JVal.vnull → startFallbackLoop parse d day (k :: rest) = (day, none) := by
        intro hnn
        have hp2 := h k (List.mem_cons_self _ _) v0 hd hnn
        rcases hp : parse v0 (some day) with ⟨pd, podt⟩
        rw [startFallbackLoop_step_val parse d day k rest hd hnn, hp]
        rw [hp] at hp2
        cases podt with
        | some dt => exact absurd hp2 (Option.noConfusion)
        | none => exact ih htail
      cases v0 with
      | vnull =>
        rw [startFallbackLoop_step_skip parse d day k rest (Or.inr hd)]
        exact ih htail
      | vstr s => exact hgen (fun hcon => JVal.noConfusion hcon)
      | vnum r => exact hgen (fun hcon => JVal.noConfusion hcon)
      | vlist l => exact hgen (fun hcon => JVal.noConfusion hcon)

theorem endFallbackLoop_step_skip (parse : ParseFn) (d : List (String × JVal)) (day : Nat)
    (k : String) (rest : List String)
    (hd : dictGet d k = none ∨ dictGet d k = some JVal.vnull) :
    endFallbackLoop parse d day (k :: rest) = endFallbackLoop parse d day rest := by
  conv_lhs => rw [endFallbackLoop]
  rcases hd with hd | hd <;> rw [hd]

theorem endFallbackLoop_step_val (parse : ParseFn) (d : List (String × JVal)) (day : Nat)
    (k : String) (rest : List String) {v0 : JVal} (hd : dictGet d k = some v0)
    (hnn : v0 ≠ JVal.vnull) :
    endFallbackLoop parse d day (k :: rest)
      = match (parse v0 (some day)).2 with
        | some dt => some dt
        | none => endFallbackLoop parse d day rest := by
  conv_lhs => rw [endFallbackLoop]
  rw [hd]
  cases v0 with
  | vnull => exact absurd rfl hnn
  | vstr s => rfl
  | vnum r => rfl
  | vlist l => rfl

/-- With every end key unparsable, the end fallback loop yields nothing. -/
theorem endFallbackLoop_all_none (parse : ParseFn) (d : List (String × JVal)) (day : Nat) :
    ∀ keys : List String,
      (∀ k ∈ keys, ∀ v, dictGet d k = some v → v ≠ JVal.vnull → (parse v (some day)).2 = none) →
      endFallbackLoop parse d day keys = none := by
  intro keys
  induction keys with
  | nil => intro _; rfl
  | cons k rest ih =>
    intro h
    have htail := fun k' hk' => h k' (List.mem_cons_of_mem _ hk')
    cases hd : dictGet d k with
    | none =>
      rw [endFallbackLoop_step_skip parse d day k rest (Or.inl hd)]
      exact ih htail
    | some v0 =>
      have hgen : v0 ≠ JVal.vnull → endFallbackLoop parse d day (k :: rest) = none := by
        intro hnn
        have hp2 := h k (List.mem_cons_self _ _) v0 hd hnn
        rw [endFallbackLoop_step_val parse d day k rest hd hnn, hp2]
        exact ih htail
      cases v0 with
      | vnull =>
        rw [endFallbackLoop_step_skip parse d day k rest (Or.inr hd)]
        exact ih htail
      | vstr s => exact hgen (fun hcon => JVal.noConfusion hcon)
      | vnum r => exact hgen (fun hcon => JVal.noConfusion hcon)
      | vlist l => exact hgen (fun hcon => JVal.noConfusion hcon)

theorem endKeyLoopAny_step_skip (parse : ParseFn) (d : List (String × JVal))
    (k : String) (rest : List String)
    (hd : dictGet d k = none ∨ dictGet d k = some JVal.vnull) :
    endKeyLoopAny parse d (k :: rest) = endKeyLoopAny parse d rest := by
  conv_lhs => rw [endKeyLoopAny]
  rcases hd with hd | hd <;> rw [hd]

theorem endKeyLoopAny_step_val (parse : ParseFn) (d : List (String × JVal))
    (k : String) (rest : List String) {v0 : JVal} (hd : dictGet d k = some v0)
    (hnn : v0 ≠ JVal.vnull) :
    endKeyLoopAny parse d (k :: rest)
      = match (parse v0 none).2 with
        | some dt => some dt
        | none => endKeyLoopAny parse d rest := by
  conv_lhs => rw [endKeyLoopAny]
  rw [hd]
  cases v0 with
  | vnull => exact absurd rfl hnn
  | vstr s => rfl
  | vnum r => rfl
  | vlist l => rfl

/-- With every end key unparsable, the any-date end loop yields nothing. -/
theorem endKeyLoopAny_all_none (parse : ParseFn) (d : List (String × JVal)) :
    ∀ keys : List String,
      (∀ k ∈ keys, ∀ v, dictGet d k = some v → v ≠ JVal.vnull → (parse v none).2 = none) →
      endKeyLoopAny parse d keys = none := by
  intro keys
  induction keys with
  | nil => intro _; rfl
  | cons k rest ih =>
    intro h
    have htail := fun k' hk' => h k' (List.mem_cons_of_mem _ hk')
    cases hd : dictGet d k with
    | none =>
      rw [endKeyLoopAny_step_skip parse d k rest (Or.inl hd)]
      exact ih htail
    | some v0 =>
      have hgen : v0 ≠ JVal.vnull → endKeyLoopAny parse d (k :: rest) = none := by
        intro hnn
        have hp2 := h k (List.mem_cons_self _ _) v0 hd hnn
        rw [endKeyLoopAny_step_val parse d k rest hd hnn, hp2]
        exact ih htail
      cases v0 with
      | vnull =>
        rw [endKeyLoopAny_step_skip parse d k rest (Or.inr hd)]
        exact ih htail
      | vstr s => exact hgen (fun hcon => JVal.noConfusion hcon)
      | vnum r => exact hgen (fun hcon => JVal.noConfusion hcon)
      | vlist l => exact hgen (fun hcon => JVal.noConfusion hcon)

/-- `_build_entry_from_dict` on a dict always returns an entry. -/
theorem buildEntryFromDict_some (parse : ParseFn) (d : List (String × JVal)) (day : Nat)
    (s en : Option PyDateTime) :
    ∃ e, buildEntryFromDict parse (some d) day s en = some e :=
  ⟨_, rfl⟩

/-- With no parsable start/end values at all, the built entry keeps
`start = end = None` (and is still an entry, not a discard). -/
theorem buildEntryFromDict_none_start_end (parse : ParseFn) (d : List (String × JVal))
    (day : Nat)
    (hs : startFallbackLoop parse d day startFallbackKeys = (day, none))
    (he : endFallbackLoop parse d day endFallbackKeys = none) :
    ∃ e, buildEntryFromDict parse (some d) day none none = some e
      ∧ e.start = none ∧ e.end_ = none := by
  refine ⟨_, rfl, ?_, ?_⟩
  · show (startFallbackLoop parse d day startFallbackKeys).2 = none
    rw [hs]
  · show endFallbackLoop parse d
      (startFallbackLoop parse d day startFallbackKeys).1 endFallbackKeys = none
    rw [hs]
    exact he

/-- C9: for every parser and record, `_build_entry_from_any_date`
returns `None` exactly when the item is not a mapping or none of the
accepted date keys carries a non-null value parsing to a calendar day;
whenever some date key yields a day a `ScheduleEntry` is returned; and
when additionally every start/end time value is unparsable the entry is
still returned with its `start`/`end` fields left `None` — unparsable
times never discard the record. -/
theorem C9_entry_from_any_date (parse : ParseFn) (item : Option (List (String × JVal))) :
    (buildEntryFromAnyDate parse item = none ↔
      (item = none ∨ ∃ d, item = some d ∧
        ∀ k ∈ anyDateKeys, ∀ v, dictGet d k = some v → v ≠ JVal.vnull →
          (parse v none).1 = none)) ∧
    (∀ d day sdt, item = some d → dateKeyLoop parse d anyDateKeys = some (day, sdt) →
      ∃ e, buildEntryFromAnyDate parse item = some e) ∧
    (∀ d day, item = some d → dateKeyLoop parse d anyDateKeys = some (day, none) →
      (∀ k ∈ startFallbackKeys, ∀ v, dictGet d k = some v → v ≠ JVal.vnull →
        (parse v (some day)).2 = none) →
      (∀ k ∈ anyEndKeys, ∀ v, dictGet d k = some v → v ≠ JVal.vnull →
        (parse v none).2 = none) →
      (∀ k ∈ endFallbackKeys, ∀ v, dictGet d k = some v → v ≠ JVal.vnull →
        (parse v (some day)).2 = none) →
      ∃ e, buildEntryFromAnyDate parse item = some e ∧ e.start = none ∧ e.end_ = none) := by
  refine ⟨?_, ?_, ?_⟩
  · cases item with
    | none =>
      constructor
      · intro _
        exact Or.inl rfl
      · intro _
        rfl
    | some d =>
      have hstep : buildEntryFromAnyDate parse (some d)
          = match dateKeyLoop parse d anyDateKeys with
            | none => none
            | some (day, startDt) =>
              buildEntryFromDict parse (some d) day startDt
                (endKeyLoopAny parse d anyEndKeys) := rfl
      rw [hstep]
      cases hdl : dateKeyLoop parse d anyDateKeys with
      | none =>
        constructor
        · intro _
          exact Or.inr ⟨d, rfl, (dateKeyLoop_none_iff parse d anyDateKeys).mp hdl⟩
        · intro _
          rfl
      | some p =>
        rcases p with ⟨day, sdt⟩
        constructor
        · intro h
          have h' : buildEntryFromDict parse (some d) day sdt
              (endKeyLoopAny parse d anyEndKeys) = none := h
          rcases buildEntryFromDict_some parse d day sdt (endKeyLoopAny parse d anyEndKeys)
            with ⟨e, he⟩
          rw [he] at h'
          exact absurd h' (Option.noConfusion)
        · intro h
          rcases h with h | ⟨d', hd', hall⟩
          · exact absurd h (Option.noConfusion)
          · have hdd : d = d' := Option.some_inj.mp hd'
            rw [← hdd] at hall
            rw [(dateKeyLoop_none_iff parse d anyDateKeys).mpr hall] at hdl
            exact absurd hdl (Option.noConfusion)
  · intro d day sdt hitem hdl
    rw [hitem]
    have hstep : buildEntryFromAnyDate parse (some d)
        = match dateKeyLoop parse d anyDateKeys with
          | none => none
          | some (day, startDt) =>
            buildEntryFromDict parse (some d) day startDt
              (endKeyLoopAny parse d anyEndKeys) := rfl
    rw [hstep, hdl]
    exact buildEntryFromDict_some parse d day sdt (endKeyLoopAny parse d anyEndKeys)
  · intro d day hitem hdl hs he1 he2
    rw [hitem]
    have hstep : buildEntryFromAnyDate parse (some d)
        = match dateKeyLoop parse d anyDateKeys with
          | none => none
          | some (day, startDt) =>
            buildEntryFromDict parse (some d) day startDt
              (endKeyLoopAny parse d anyEndKeys) := rfl
    rw [hstep, hdl, endKeyLoopAny_all_none parse d anyEndKeys he1]
    exact buildEntryFromDict_none_start_end parse d day
      (startFallbackLoop_all_none parse d day startFallbackKeys hs)
      (endFallbackLoop_all_none parse d day endFallbackKeys he2)

/-- C9 witness: a record whose only recognised key is `"date"` with a
parsable value yields an entry with no start or end time. -/
theorem C9_entry_from_any_date_witness :
    dateKeyLoop exParse exItemC9 anyDateKeys = some (1, none) ∧
    (∃ e, buildEntryFromAnyDate exParse (some exItemC9) = some e
      ∧ e.start = none ∧ e.end_ = none) := by
  have hget : ∀ keys : List String, (∀ k ∈ keys, (dictGet exItemC9 k).isNone) →
      ∀ k ∈ keys, ∀ v, dictGet exItemC9 k = some v → v ≠ JVal.vnull →
        ∀ (P : Prop), P := by
    intro keys hall k hk v hv _ P
    have := hall k hk
    rw [hv] at this
    exact absurd this (by simp)
  refine ⟨by decide, ?_⟩
  refine (C9_entry_from_any_date exParse (some exItemC9)).2.2 exItemC9 1 rfl (by decide)
    ?_ ?_ ?_
  · intro k hk v hv hnull
    exact hget startFallbackKeys (by decide) k hk v hv hnull _
  · intro k hk v hv hnull
    exact hget anyEndKeys (by decide) k hk v hv hnull _
  · intro k hk v hv hnull
    exact hget endFallbackKeys (by decide) k hk v hv hnull _

end MediaPlatform
